import Mathlib

/-!
# appengine-signed-url: the upload handler of `main.go`

A shallow embedding of `src/main.go`.  Go strings are Lean `String`s: request
bodies are taken to be valid UTF-8, and the other strings the handler sees
come out of a JSON decoder or are ASCII literals, so a byte-level substring
search agrees with a character-level one.  Byte slices are lists of naturals
below 256, and the process-wide state the handler reads (the random generator
`rd`, the clock, the storage and IAM libraries) is passed explicitly.  The
mutex around the generator has no counterpart: calls are taken one at a time.
A Go panic is `none`.  A Go result with an error is `Except` where the code
returns the zero value beside every error, and the pair of both results where
it does not (`DecodeString`, `signBytes`, `Write`).
-/

namespace SignedUrl

/-! ## Key generator (`main.go` lines 24, 65-73) -/

/-- The constant `alphanum` of line 24. -/
def alphanum : String :=
  "ABCDEFGHIJKLMNOPQRSTUVWXYZabcdefghijklmnopqrstuvwxyz0123456789"

/-- The loop `for i := 0; i < len(b); i++ { b[i] = alphanum[rd.Intn(len(alphanum))] }`
of `uniqueId`, with `n = len(b) - i` iterations left.  `Intn` is the method
`rd.Intn` as a state transformer on the generator; indexing `alphanum` out of
range is the Go panic, `none`. -/
def uniqueIdLoop {σ : Type} (Intn : Nat → σ → Nat × σ) :
    Nat → Nat → σ → List Char → Option (List Char × σ)
  | 0, _, s, b => some (b, s)
  | n + 1, i, s, b =>
    match alphanum.data[(Intn alphanum.length s).1]? with
    | none => none
    | some c => uniqueIdLoop Intn n (i + 1) (Intn alphanum.length s).2 (b.set i c)

/-- The function `uniqueId`: a zeroed `[20]byte` is filled and converted to a
string; the generator state after the call is returned with the key. -/
def uniqueId {σ : Type} (Intn : Nat → σ → Nat × σ) (s : σ) : Option (String × σ) :=
  match uniqueIdLoop Intn 20 0 s (List.replicate 20 (Char.ofNat 0)) with
  | none => none
  | some (b, s') => some (String.mk b, s')

/-! ## `encoding/json`: reading the request body

The handler decodes the body with `json.NewDecoder(r.Body).Decode(&body)`.
The decoder reads the first JSON value of the stream (what follows it is left
unread), checks its grammar, and stores it into the `uploadRequest`. -/

/-- The request type `uploadRequest` of lines 20-22. -/
structure uploadRequest where
  ContentType : String
  deriving DecidableEq, Repr

/-- The errors `Decode` returns: `io.EOF` on an empty stream,
`io.ErrUnexpectedEOF` when the stream ends inside a value, a
`*json.SyntaxError` for a byte the grammar does not allow (`exceededDepth` is
the one raised past 10000 nested containers), and a
`*json.UnmarshalTypeError` when a value does not fit the Go type. -/
inductive JsonError where
  | eof
  | unexpectedEOF
  | invalidCharacter
  | exceededDepth
  | unmarshalType
  deriving DecidableEq, Repr

deriving instance DecidableEq for Except

/-- A parsed JSON value; a number keeps its text. -/
inductive JValue where
  | null
  | bool (b : Bool)
  | number (text : List Char)
  | str (s : List Char)
  | arr (xs : List JValue)
  | obj (members : List (List Char × JValue))

/-- The scanner's `isSpace`. -/
def isSpace (c : Char) : Bool :=
  c = ' ' || c = '\t' || c = '\r' || c = '\n'

/-- Leading white space is skipped. -/
def skipSpace : List Char → List Char
  | [] => []
  | c :: cs => if isSpace c then skipSpace cs else c :: cs

/-- Value of a hexadecimal digit. -/
def hexVal (c : Char) : Option Nat :=
  if '0' ≤ c ∧ c ≤ '9' then some (c.toNat - 48)
  else if 'a' ≤ c ∧ c ≤ 'f' then some (c.toNat - 87)
  else if 'A' ≤ c ∧ c ≤ 'F' then some (c.toNat - 55)
  else none

/-- The code unit of the four hexadecimal digits of a `\u` escape. -/
def hex4 (h1 h2 h3 h4 : Char) : Option Nat :=
  match hexVal h1, hexVal h2, hexVal h3, hexVal h4 with
  | some x, some y, some z, some w => some (((x * 16 + y) * 16 + z) * 16 + w)
  | _, _, _, _ => none

/-- The decoder's `getu4`: the code unit of a leading `\uXXXX`, if there is one. -/
def getu4 : List Char → Option Nat
  | c :: e :: h1 :: h2 :: h3 :: h4 :: _ =>
    if c = '\\' ∧ e = 'u' then hex4 h1 h2 h3 h4 else none
  | _ => none

/-- The character a `\uXXXX` escape with code unit `u` stands for, and whether
the escape that follows it is used up as the low half of a surrogate pair; a
surrogate that is not the high half of a valid pair becomes U+FFFD. -/
def escapedRune (u : Nat) (next : List Char) : Char × Bool :=
  if 0xD800 ≤ u ∧ u < 0xE000 then
    match getu4 next with
    | some v =>
      if u < 0xDC00 ∧ 0xDC00 ≤ v ∧ v < 0xE000 then
        (Char.ofNat ((u - 0xD800) * 1024 + (v - 0xDC00) + 0x10000), true)
      else (Char.ofNat 0xFFFD, false)
    | none => (Char.ofNat 0xFFFD, false)
  else (Char.ofNat u, false)

/-- The character of a one-letter escape. -/
def simpleEscape (c : Char) : Option Char :=
  if c = '"' then some '"'
  else if c = '\\' then some '\\'
  else if c = '/' then some '/'
  else if c = 'b' then some (Char.ofNat 8)
  else if c = 'f' then some (Char.ofNat 12)
  else if c = 'n' then some '\n'
  else if c = 'r' then some '\r'
  else if c = 't' then some '\t'
  else none

/-- Adds a decoded character in front of the rest of a literal. -/
def consChar (c : Char) :
    Except JsonError (List Char × List Char) → Except JsonError (List Char × List Char)
  | .ok (s, rest) => .ok (c :: s, rest)
  | .error e => .error e

/-- Puts the character of a surrogate pair in the place of the U+FFFD that the
low half, read on its own, has left at the head of the rest of a literal. -/
def replaceHead (c : Char) :
    Except JsonError (List Char × List Char) → Except JsonError (List Char × List Char)
  | .ok (_ :: s, rest) => .ok (c :: s, rest)
  | r => r

/-- The error for a `\u` escape that the end of the input cuts short: a
character that is not a hexadecimal digit is rejected where it stands,
otherwise the input ends inside the literal. -/
def shortEscape : List Char → JsonError
  | [] => .unexpectedEOF
  | c :: cs => if (hexVal c).isSome then shortEscape cs else .invalidCharacter

/-- A string literal after its opening quote: the decoded text and the input
after the closing quote.  A control character inside the literal and an
unknown escape are rejected. -/
def parseString : List Char → Except JsonError (List Char × List Char)
  | [] => .error .unexpectedEOF
  | c :: rest =>
    if c = '"' then .ok ([], rest)
    else if c = '\\' then
      match rest with
      | [] => .error .unexpectedEOF
      | e :: rest1 =>
        if e = 'u' then
          match rest1 with
          | h1 :: h2 :: h3 :: h4 :: rest5 =>
            match hex4 h1 h2 h3 h4 with
            | none => .error .invalidCharacter
            | some u =>
              if (escapedRune u rest5).2 then
                replaceHead (escapedRune u rest5).1 (parseString rest5)
              else consChar (escapedRune u rest5).1 (parseString rest5)
          | short => .error (shortEscape short)
        else
          match simpleEscape e with
          | none => .error .invalidCharacter
          | some d => consChar d (parseString rest1)
    else if c.toNat < 0x20 then .error .invalidCharacter
    else consChar c (parseString rest)

/-- A literal name (`true`, `false`, `null`) is matched byte by byte. -/
def expectLit : List Char → List Char → Except JsonError (List Char)
  | [], input => .ok input
  | _ :: _, [] => .error .unexpectedEOF
  | e :: es, c :: cs => if c = e then expectLit es cs else .error .invalidCharacter

/-- A decimal digit. -/
def isDigit (c : Char) : Bool := '0' ≤ c ∧ c ≤ '9'

/-- One digit and the digits after it; the input after them. -/
def digits1 : List Char → Except JsonError (List Char)
  | [] => .error .unexpectedEOF
  | c :: cs => if isDigit c then .ok (cs.dropWhile isDigit) else .error .invalidCharacter

/-- The exponent part of a number, if one follows. -/
def parseExp : List Char → Except JsonError (List Char)
  | [] => .ok []
  | c :: cs =>
    if c = 'e' ∨ c = 'E' then
      match cs with
      | [] => .error .unexpectedEOF
      | d :: ds => if d = '+' ∨ d = '-' then digits1 ds else digits1 (d :: ds)
    else .ok (c :: cs)

/-- The fraction and exponent parts of a number, if they follow. -/
def parseFrac : List Char → Except JsonError (List Char)
  | [] => .ok []
  | c :: cs =>
    if c = '.' then
      match digits1 cs with
      | .ok rest => parseExp rest
      | .error e => .error e
    else parseExp (c :: cs)

/-- The digits of a number after its sign: a lone `0` or a digit string
without a leading zero, then fraction and exponent. -/
def parseInt : List Char → Except JsonError (List Char)
  | [] => .error .unexpectedEOF
  | c :: cs =>
    if c = '0' then parseFrac cs
    else if isDigit c then parseFrac (cs.dropWhile isDigit)
    else .error .invalidCharacter

/-- A number; the input after it. -/
def parseNumber : List Char → Except JsonError (List Char)
  | [] => .error .unexpectedEOF
  | c :: cs => if c = '-' then parseInt cs else parseInt (c :: cs)

/-- The elements of an array after the first one: `, value` repeated up to
`]`.  `pv` reads one value; `n` bounds the number of elements and is given
the length of the input, which the loop cannot use up. -/
def parseElems (pv : List Char → Except JsonError (JValue × List Char)) :
    Nat → List Char → Except JsonError (List JValue × List Char)
  | 0, _ => .error .unexpectedEOF
  | n + 1, input =>
    match skipSpace input with
    | [] => .error .unexpectedEOF
    | c :: rest =>
      if c = ']' then .ok ([], rest)
      else if c = ',' then
        match pv rest with
        | .error e => .error e
        | .ok (v, rest1) =>
          match parseElems pv n rest1 with
          | .error e => .error e
          | .ok (vs, rest2) => .ok (v :: vs, rest2)
      else .error .invalidCharacter

/-- One member `"key" : value` of an object, from its opening quote on. -/
def parseMember (pv : List Char → Except JsonError (JValue × List Char))
    (input : List Char) : Except JsonError ((List Char × JValue) × List Char) :=
  match input with
  | [] => .error .unexpectedEOF
  | c :: rest =>
    if c = '"' then
      match parseString rest with
      | .error e => .error e
      | .ok (key, rest1) =>
        match skipSpace rest1 with
        | [] => .error .unexpectedEOF
        | d :: rest2 =>
          if d = ':' then
            match pv rest2 with
            | .error e => .error e
            | .ok (v, rest3) => .ok ((key, v), rest3)
          else .error .invalidCharacter
    else .error .invalidCharacter

/-- The members of an object after the first one: `, member` repeated up to
`}`; `n` bounds their number as in `parseElems`. -/
def parseMembers (pv : List Char → Except JsonError (JValue × List Char)) :
    Nat → List Char → Except JsonError (List (List Char × JValue) × List Char)
  | 0, _ => .error .unexpectedEOF
  | n + 1, input =>
    match skipSpace input with
    | [] => .error .unexpectedEOF
    | c :: rest =>
      if c = '}' then .ok ([], rest)
      else if c = ',' then
        match parseMember pv (skipSpace rest) with
        | .error e => .error e
        | .ok (m, rest1) =>
          match parseMembers pv n rest1 with
          | .error e => .error e
          | .ok (ms, rest2) => .ok (m :: ms, rest2)
      else .error .invalidCharacter

/-- One JSON value after optional white space, with `depth` more levels of
nesting allowed; the value and the input after it. -/
def parseValue : Nat → List Char → Except JsonError (JValue × List Char)
  | depth, input =>
    match skipSpace input with
    | [] => .error .unexpectedEOF
    | c :: rest =>
      if c = '"' then
        match parseString rest with
        | .error e => .error e
        | .ok (s, rest1) => .ok (.str s, rest1)
      else if c = '[' then
        match depth with
        | 0 => .error .exceededDepth
        | d + 1 =>
          match skipSpace rest with
          | [] => .error .unexpectedEOF
          | e :: rest1 =>
            if e = ']' then .ok (.arr [], rest1)
            else
              match parseValue d (e :: rest1) with
              | .error err => .error err
              | .ok (v, rest2) =>
                match parseElems (parseValue d) rest2.length rest2 with
                | .error err => .error err
                | .ok (vs, rest3) => .ok (.arr (v :: vs), rest3)
      else if c = '{' then
        match depth with
        | 0 => .error .exceededDepth
        | d + 1 =>
          match skipSpace rest with
          | [] => .error .unexpectedEOF
          | e :: rest1 =>
            if e = '}' then .ok (.obj [], rest1)
            else
              match parseMember (parseValue d) (e :: rest1) with
              | .error err => .error err
              | .ok (m, rest2) =>
                match parseMembers (parseValue d) rest2.length rest2 with
                | .error err => .error err
                | .ok (ms, rest3) => .ok (.obj (m :: ms), rest3)
      else if c = 't' then
        match expectLit ['r', 'u', 'e'] rest with
        | .error e => .error e
        | .ok rest1 => .ok (.bool true, rest1)
      else if c = 'f' then
        match expectLit ['a', 'l', 's', 'e'] rest with
        | .error e => .error e
        | .ok rest1 => .ok (.bool false, rest1)
      else if c = 'n' then
        match expectLit ['u', 'l', 'l'] rest with
        | .error e => .error e
        | .ok rest1 => .ok (.null, rest1)
      else if c = '-' ∨ isDigit c then
        match parseNumber (c :: rest) with
        | .error e => .error e
        | .ok rest1 => .ok (.number ((c :: rest).take ((c :: rest).length - rest1.length)), rest1)
      else .error .invalidCharacter

/-- ASCII upper case of a letter, other characters unchanged. -/
def upperASCII (c : Char) : Char :=
  if 'a' ≤ c ∧ c ≤ 'z' then Char.ofNat (c.toNat - 32) else c

/-- Whether an object key names the field tagged `json:"contentType"`: the
decoder accepts the tag and any spelling of it that differs only in the case
of its letters. -/
def matchesContentType (key : List Char) : Bool :=
  key.map upperASCII = "CONTENTTYPE".data

/-- Storing the members of an object into the struct, in order: a string
under the field's key sets `ContentType`, a `null` leaves it, any other value
is a type error, which is remembered (the first one) while the remaining
members are still stored; members under other keys are skipped. -/
def unmarshalMembers :
    List (List Char × JValue) → uploadRequest → Option JsonError →
      uploadRequest × Option JsonError
  | [], body, saved => (body, saved)
  | (key, v) :: ms, body, saved =>
    if matchesContentType key then
      match v with
      | .str s => unmarshalMembers ms { ContentType := String.mk s } saved
      | .null => unmarshalMembers ms body saved
      | _ => unmarshalMembers ms body (saved.orElse fun _ => some .unmarshalType)
    else unmarshalMembers ms body saved

/-- Storing a JSON value into `body`: an object fills the struct, `null` is a
no-op, every other value is a type error. -/
def unmarshal (v : JValue) (body : uploadRequest) : Except JsonError uploadRequest :=
  match v with
  | .obj ms =>
    match unmarshalMembers ms body none with
    | (body', none) => .ok body'
    | (_, some e) => .error e
  | .null => .ok body
  | _ => .error .unmarshalType

/-- The nesting the scanner allows, `maxNestingDepth`. -/
def maxNestingDepth : Nat := 10000

/-- The call `json.NewDecoder(r.Body).Decode(&body)` on a fresh decoder:
the first value of the stream is read and stored into `body`. -/
def jsonDecode (stream : String) (body : uploadRequest) : Except JsonError uploadRequest :=
  match skipSpace stream.data with
  | [] => .error .eof
  | c :: rest =>
    match parseValue maxNestingDepth (c :: rest) with
    | .error e => .error e
    | .ok (v, _) => unmarshal v body

/-! ## `encoding/json`: writing the response body -/

/-- The table `hex` of the encoder. -/
def hexDigit (n : Nat) : Char := "0123456789abcdef".data.getD n '0'

/-- How the encoder writes one character of a string, HTML escaping on (the
default of `json.NewEncoder`): quote and backslash get a backslash, line feed,
carriage return and tab their letter, the other control characters and `<`,
`>`, `&` a `\u00XX` escape, U+2028 and U+2029 a `\u` escape, every other
character is copied.  (From Go 1.22 on, backspace and form feed are written
`\b` and `\f` instead of `\u0008` and `\u000c`; both spellings decode to the
same character.) -/
def quoteChar (c : Char) : List Char :=
  if c = '\\' ∨ c = '"' then ['\\', c]
  else if c = '\n' then ['\\', 'n']
  else if c = '\r' then ['\\', 'r']
  else if c = '\t' then ['\\', 't']
  else if c.toNat < 0x20 ∨ c = '<' ∨ c = '>' ∨ c = '&' then
    ['\\', 'u', '0', '0', hexDigit (c.toNat / 16), hexDigit (c.toNat % 16)]
  else if c.toNat = 0x2028 then ['\\', 'u', '2', '0', '2', '8']
  else if c.toNat = 0x2029 then ['\\', 'u', '2', '0', '2', '9']
  else [c]

/-- The inside of a JSON string literal for `s`. -/
def quoteBody : List Char → List Char
  | [] => []
  | c :: cs => quoteChar c ++ quoteBody cs

/-- A JSON string literal for `s`. -/
def quote (s : List Char) : List Char :=
  '"' :: (quoteBody s ++ ['"'])

/-- What `json.NewEncoder(w).Encode(res)` writes for the map `res` of lines
126-128, whose only key is `url`: the object and a line feed. -/
def encodeRes (url : String) : String :=
  String.mk (('{' :: quote "url".data) ++ (':' :: quote url.data) ++ ['}', '\n'])

/-! ## `encoding/base64`, `StdEncoding` -/

/-- The alphabet `encodeStd`. -/
def encodeStd : String :=
  "ABCDEFGHIJKLMNOPQRSTUVWXYZabcdefghijklmnopqrstuvwxyz0123456789+/"

/-- The lookup `enc.encode[n]`. -/
def encodeTable (n : Nat) : Char := encodeStd.data.getD n 'A'

/-- The lookup `enc.decodeMap[c]`: the position of `c` in the alphabet;
`none` stands for the entry 0xff of a byte outside it. -/
def decodeMap (c : Char) : Option Nat :=
  if encodeStd.data.indexOf c < 64 then some (encodeStd.data.indexOf c) else none

/-- The method `EncodeToString`: three bytes become four characters, a last
group of one or two bytes is padded with `=`. -/
def EncodeToString : List Nat → List Char
  | [] => []
  | [b0] =>
    [encodeTable (b0 * 65536 / 262144 % 64), encodeTable (b0 * 65536 / 4096 % 64), '=', '=']
  | [b0, b1] =>
    [encodeTable ((b0 * 65536 + b1 * 256) / 262144 % 64),
     encodeTable ((b0 * 65536 + b1 * 256) / 4096 % 64),
     encodeTable ((b0 * 65536 + b1 * 256) / 64 % 64), '=']
  | b0 :: b1 :: b2 :: rest =>
    encodeTable ((b0 * 65536 + b1 * 256 + b2) / 262144 % 64) ::
    encodeTable ((b0 * 65536 + b1 * 256 + b2) / 4096 % 64) ::
    encodeTable ((b0 * 65536 + b1 * 256 + b2) / 64 % 64) ::
    encodeTable ((b0 * 65536 + b1 * 256 + b2) % 64) :: EncodeToString rest

/-- The bytes of a quantum of `dlen` six-bit values `dbuf` (missing ones are
zero): `dlen - 1` bytes of the 24-bit word they form. -/
def quantumBytes (dbuf : List Nat) : List Nat :=
  ([(dbuf.getD 0 0 * 262144 + dbuf.getD 1 0 * 4096 + dbuf.getD 2 0 * 64 + dbuf.getD 3 0)
      / 65536 % 256,
    (dbuf.getD 0 0 * 262144 + dbuf.getD 1 0 * 4096 + dbuf.getD 2 0 * 64 + dbuf.getD 3 0)
      / 256 % 256,
    (dbuf.getD 0 0 * 262144 + dbuf.getD 1 0 * 4096 + dbuf.getD 2 0 * 64 + dbuf.getD 3 0)
      % 256]).take (dbuf.length - 1)

/-- The loop `for si < len(src) && (src[si] == '\n' || src[si] == '\r') { si++ }`. -/
def skipNewlines : List Char → Nat → List Char × Nat
  | [], si => ([], si)
  | c :: cs, si => if c = '\n' ∨ c = '\r' then skipNewlines cs (si + 1) else (c :: cs, si)

/-- The end of `decodeQuantum` once the padding of the last quantum is read:
new lines are skipped and anything left is trailing garbage, reported with
the bytes of the quantum still counted. -/
def afterPadding (src : List Char) (si : Nat) (dbuf : List Nat) : List Nat × Option Nat :=
  match skipNewlines src si with
  | ([], _) => (quantumBytes dbuf, none)
  | (_ :: _, si') => (quantumBytes dbuf, some si')

/-- The methods `Decode` and `decodeQuantum` on the input that is left at
offset `si`, with the six-bit values `dbuf` of the current quantum read so
far; `len` is `len(src)`.  The result is both results of the Go method: the
bytes decoded (those of the quanta completed before an error) and the error,
the offset of a `CorruptInputError`, if there is one.  New lines are skipped,
padding is required and may only end the input. -/
def decodeFrom (len : Nat) : List Char → Nat → List Nat → List Nat × Option Nat
  | [], si, dbuf => if dbuf.length = 0 then ([], none) else ([], some (si - dbuf.length))
  | c :: rest, si, dbuf =>
    match decodeMap c with
    | some out =>
      if dbuf.length = 3 then
        (quantumBytes (dbuf ++ [out]) ++ (decodeFrom len rest (si + 1) []).1,
          (decodeFrom len rest (si + 1) []).2)
      else decodeFrom len rest (si + 1) (dbuf ++ [out])
    | none =>
      if c = '\n' ∨ c = '\r' then decodeFrom len rest (si + 1) dbuf
      else if c ≠ '=' then ([], some si)
      else if dbuf.length < 2 then ([], some si)
      else if dbuf.length = 2 then
        match skipNewlines rest (si + 1) with
        | ([], _) => ([], some len)
        | (d :: rest', si') =>
          if d ≠ '=' then ([], some (si' - 1)) else afterPadding rest' (si' + 1) dbuf
      else afterPadding rest (si + 1) dbuf

/-- The method `DecodeString`: `dbuf[:n]` and `err`. -/
def DecodeString (s : String) : List Nat × Option Nat :=
  decodeFrom s.data.length s.data 0 []

/-! ## `strings.Contains` -/

/-- The function `strings.HasPrefix`. -/
def HasPrefix : List Char → List Char → Bool
  | _, [] => true
  | [], _ :: _ => false
  | c :: s, p :: ps => c = p && HasPrefix s ps

/-- The function `strings.Index` from offset `i` on: the offset of the first
occurrence of `substr`, or -1. -/
def IndexFrom (substr : List Char) : List Char → Int → Int
  | [], i => if HasPrefix [] substr then i else -1
  | c :: s, i => if HasPrefix (c :: s) substr then i else IndexFrom substr s (i + 1)

/-- The function `strings.Index`. -/
def Index (s substr : String) : Int := IndexFrom substr.data s.data 0

/-- The function `strings.Contains`, `Index(s, substr) >= 0`. -/
def Contains (s substr : String) : Bool := decide (Index s substr ≥ 0)

/-! ## The environment of the handler -/

/-- A Go `error` value the handler can meet: one of the JSON decoder, a
`base64.CorruptInputError` with its offset, or an error of the storage or IAM
client library, given by its message. -/
inductive GoError where
  | json (e : JsonError)
  | corruptInput (offset : Nat)
  | lib (msg : String)
  deriving DecidableEq, Repr

/-- A call into the signing machinery, as it is journalled: `signBytes`
entered with a payload, `iam.NewService`, and the `SignBlob` request sent to
the signing authority with its two arguments. -/
inductive SignerCall where
  | signBytes (payload : List Nat)
  | NewService
  | SignBlob (name : String) (bytesToSign : String)
  deriving DecidableEq, Repr

/-- The constants `storage.SigningSchemeDefault`, `SigningSchemeV2`,
`SigningSchemeV4`. -/
inductive SigningScheme where
  | SigningSchemeDefault
  | SigningSchemeV2
  | SigningSchemeV4
  deriving DecidableEq, Repr

/-- The fields of `storage.SignedURLOptions` that line 98-107 set.
`SignBytes` returns its two results, the bytes and the error, and the calls
it made. -/
structure SignedURLOptions where
  GoogleAccessID : String
  SignBytes : List Nat → (List Nat × Option GoError) × List SignerCall
  Method : String
  Expires : Int
  ContentType : String
  Scheme : SigningScheme

/-- What the handler reads from outside itself.  `projectId` is the
environment variable `GOOGLE_CLOUD_PROJECT`; `Intn` is `rd.Intn` on the
generator state; `Now` is `time.Now()` in nanoseconds since the epoch;
`jsonErrorText` is the method `Error()` of the decoder's errors.
`stringToSign` and `assembleURL` are the two halves of `storage.SignedURL`
around its call of `SignBytes`: the check of the options with the canonical
request, and the URL built from the signature.  `NewService` is
`iam.NewService(ctx)` and `SignBlob` the signing authority, from the identity
and the base64 payload to the base64 signature.  `writeError` is the error
the response writer's `Write` returns for the bytes it is given, if it
returns one, and `DetectContentType` is `http.DetectContentType`. -/
structure Env (σ : Type) where
  projectId : String
  Intn : Nat → σ → Nat × σ
  Now : Int
  jsonErrorText : JsonError → String
  stringToSign : String → String → SignedURLOptions → Except GoError (List Nat)
  assembleURL : String → String → SignedURLOptions → List Nat → String
  NewService : Except GoError Unit
  SignBlob : String → String → Except GoError String
  writeError : String → Option GoError
  DetectContentType : String → String

/-- The method `Error()`. -/
def GoError.Error {σ : Type} (env : Env σ) : GoError → String
  | .json e => env.jsonErrorText e
  | .corruptInput offset => "illegal base64 data at input byte " ++ toString offset
  | .lib msg => msg

/-- The variable `serviceAccountName` as `init` sets it (lines 36-39). -/
def serviceAccountName {σ : Type} (env : Env σ) : String :=
  env.projectId ++ "@appspot.gserviceaccount.com"

/-- The variable `serviceAccountId` as `init` sets it (lines 40-44). -/
def serviceAccountId {σ : Type} (env : Env σ) : String :=
  "projects/" ++ env.projectId ++ "/serviceAccounts/" ++ serviceAccountName env

/-- The function `signBytes` (lines 136-151): its two results, the bytes
(`nil` is the empty list) and the error, with the calls it makes.  Line 150
returns both results of `DecodeString` as they are. -/
def signBytes {σ : Type} (env : Env σ) (payload : List Nat) :
    (List Nat × Option GoError) × List SignerCall :=
  match env.NewService with
  | .error err => (([], some err), [.signBytes payload, .NewService])
  | .ok _ =>
    match env.SignBlob (serviceAccountId env) (String.mk (EncodeToString payload)) with
    | .error err =>
      (([], some err), [.signBytes payload, .NewService,
        .SignBlob (serviceAccountId env) (String.mk (EncodeToString payload))])
    | .ok Signature =>
      (((DecodeString Signature).1, (DecodeString Signature).2.map GoError.corruptInput),
       [.signBytes payload, .NewService,
        .SignBlob (serviceAccountId env) (String.mk (EncodeToString payload))])

/-- The function `storage.SignedURL` of the client library: the options are
checked and the bytes to sign are built, `opts.SignBytes` is called on them
once, its error is returned as it is (the bytes that came with it are
dropped), and the URL is built from the signature. -/
def SignedURL {σ : Type} (env : Env σ) (bucket object : String) (opts : SignedURLOptions) :
    Except GoError String × List SignerCall :=
  match env.stringToSign bucket object opts with
  | .error err => (.error err, [])
  | .ok bytes =>
    match opts.SignBytes bytes with
    | ((_, some err), calls) => (.error err, calls)
    | ((sig, none), calls) => (.ok (env.assembleURL bucket object opts sig), calls)

/-! ## The HTTP side -/

/-- The fields of `*http.Request` the handler reads. -/
structure Request where
  Method : String
  Body : String
  deriving DecidableEq, Repr

/-- An `http.ResponseWriter`, by what the handler does to it: the header
map, the status once `WriteHeader` has run (explicitly, or with 200 at the
first `Write`), and the bytes handed to `Write`, in order.  Whether a `Write`
returns an error is the environment's. -/
structure ResponseWriter where
  Header : List (String × String)
  Code : Option Nat
  Body : String
  deriving DecidableEq, Repr

/-- The call `w.Header().Set(key, value)`. -/
def ResponseWriter.Set (w : ResponseWriter) (key value : String) : ResponseWriter :=
  { w with Header := w.Header.filter (fun kv => kv.1 ≠ key) ++ [(key, value)] }

/-- The method `WriteHeader`; a second call changes nothing. -/
def ResponseWriter.WriteHeader (w : ResponseWriter) (code : Nat) : ResponseWriter :=
  match w.Code with
  | none => { w with Code := some code }
  | some _ => w

/-- What a first `Write` does before it writes: when no `Content-Type` is
set, the one detected from the data is added, and the status 200 is written. -/
def ResponseWriter.sniff {σ : Type} (env : Env σ) (w : ResponseWriter) (data : String) :
    ResponseWriter :=
  match w.Code with
  | none =>
    if w.Header.any (fun kv => kv.1 = "Content-Type") then w.WriteHeader 200
    else (w.Set "Content-Type" (env.DetectContentType data)).WriteHeader 200
  | some _ => w

/-- The method `Write`: the writer after the call and the error returned. -/
def ResponseWriter.Write {σ : Type} (env : Env σ) (w : ResponseWriter) (data : String) :
    ResponseWriter × Option GoError :=
  ({ w.sniff env data with Body := w.Body ++ data }, env.writeError data)

/-- The function `http.Error`: plain-text headers, the status, and the
message with a line feed, written with `fmt.Fprintln`, whose results are not
looked at. -/
def httpError {σ : Type} (env : Env σ) (w : ResponseWriter) (error : String) (code : Nat) :
    ResponseWriter :=
  ((((w.Set "Content-Type" "text/plain; charset=utf-8").Set
      "X-Content-Type-Options" "nosniff").WriteHeader code).Write env (error ++ "\n")).1

/-- The call `json.NewEncoder(w).Encode(res)` for the map `res` of lines
126-128: the text is written in one `Write`, whose error is returned. -/
def Encode {σ : Type} (env : Env σ) (w : ResponseWriter) (url : String) :
    ResponseWriter × Option GoError :=
  w.Write env (encodeRes url)

/-- The constant `http.StatusOK`. -/
def StatusOK : Nat := 200

/-- The constant `http.StatusBadRequest`. -/
def StatusBadRequest : Nat := 400

/-- The constant `http.StatusInternalServerError`. -/
def StatusInternalServerError : Nat := 500

/-- The constant `time.Minute`, in nanoseconds. -/
def Minute : Int := 60 * 1000000000

/-- A call the handler makes, as it is journalled: the decoder on the body,
`uniqueId` with the key it returned, `storage.SignedURL` with its arguments,
a call made below `SignedURL`, the encoder on the response map, and
`http.Error` with its message and status. -/
inductive Call where
  | Decode (stream : String)
  | uniqueId (key : String)
  | SignedURL (bucket object : String) (opts : SignedURLOptions)
  | signer (c : SignerCall)
  | Encode (url : String)
  | Error (error : String) (code : Nat)

/-- The end of a run of the handler: the response, the generator state, and
the calls made, in order. -/
structure Outcome (σ : Type) where
  w : ResponseWriter
  rd : σ
  calls : List Call

/-- The options built at lines 98-107. -/
def buildOptions {σ : Type} (env : Env σ) (body : uploadRequest) : SignedURLOptions :=
  { GoogleAccessID := serviceAccountName env
    SignBytes := fun bytes => signBytes env bytes
    Method := "PUT"
    Expires := env.Now + 10 * Minute
    ContentType := body.ContentType
    Scheme := .SigningSchemeV4 }

/-- The variable `ext` after lines 108-115. -/
def inferExt (body : uploadRequest) : String :=
  if Contains body.ContentType "png" then "png"
  else if Contains body.ContentType "jpeg" then "jpg"
  else if Contains body.ContentType "jpg" then "jpg"
  else ""

/-- The function `uploadHandler` (lines 84-134) on a fresh response writer,
with the generator in state `rd`.  `none` is the panic of `uniqueId`. -/
def uploadHandler {σ : Type} (env : Env σ) (rd : σ) (r : Request) : Option (Outcome σ) :=
  let w := ((ResponseWriter.mk [] none "").Set "Access-Control-Allow-Headers"
    "Content-Type").Set "Access-Control-Allow-Origin" "*"
  if r.Method = "OPTIONS" then
    some { w := w.WriteHeader StatusOK, rd := rd, calls := [] }
  else
    match jsonDecode r.Body { ContentType := "" } with
    | .error err =>
      some { w := httpError env w ((GoError.json err).Error env) StatusBadRequest
             rd := rd
             calls := [.Decode r.Body,
               .Error ((GoError.json err).Error env) StatusBadRequest] }
    | .ok body =>
      match uniqueId env.Intn rd with
      | none => none
      | some (key, rd') =>
        match SignedURL env env.projectId ("images/" ++ key ++ "." ++ inferExt body)
            (buildOptions env body) with
        | (.error err, calls) =>
          some { w := httpError env w (err.Error env) StatusInternalServerError
                 rd := rd'
                 calls := [.Decode r.Body, .uniqueId key,
                   .SignedURL env.projectId ("images/" ++ key ++ "." ++ inferExt body)
                     (buildOptions env body)] ++ calls.map .signer ++
                   [.Error (err.Error env) StatusInternalServerError] }
        | (.ok url, calls) =>
          match Encode env w url with
          | (w', none) =>
            some { w := w'
                   rd := rd'
                   calls := [.Decode r.Body, .uniqueId key,
                     .SignedURL env.projectId ("images/" ++ key ++ "." ++ inferExt body)
                       (buildOptions env body)] ++ calls.map .signer ++ [.Encode url] }
          | (w', some err) =>
            some { w := httpError env w' (err.Error env) StatusInternalServerError
                   rd := rd'
                   calls := [.Decode r.Body, .uniqueId key,
                     .SignedURL env.projectId ("images/" ++ key ++ "." ++ inferExt body)
                       (buildOptions env body)] ++ calls.map .signer ++
                     [.Encode url, .Error (err.Error env) StatusInternalServerError] }

/-- A sample environment: project `demo`, a generator whose state is a
counter and whose `Intn n` returns the counter modulo `n`, a storage library
that signs the object name and appends the signature length, a signing
authority that answers `AQID`, and a response writer that takes every write. -/
def sampleEnv : Env Nat :=
  { projectId := "demo"
    Intn := fun n s => (s % n, s + 1)
    Now := 1000
    jsonErrorText := fun _ => "json error"
    stringToSign := fun _ object _ => .ok (object.data.map Char.toNat)
    assembleURL := fun bucket object _ sig =>
      "https://storage.googleapis.com/" ++ bucket ++ "/" ++ object ++ "?n=" ++
        toString sig.length ++ "&v=4"
    NewService := .ok ()
    SignBlob := fun _ _ => .ok "AQID"
    writeError := fun _ => none
    DetectContentType := fun _ => "text/plain; charset=utf-8" }

/-- The calls of a journal that went below `storage.SignedURL`. -/
def signerCalls : List Call → List SignerCall
  | [] => []
  | .signer c :: cs => c :: signerCalls cs
  | _ :: cs => signerCalls cs

/-- The bucket and object of the `storage.SignedURL` calls of a journal. -/
def signedObjects : List Call → List (String × String)
  | [] => []
  | .SignedURL bucket object _ :: cs => (bucket, object) :: signedObjects cs
  | _ :: cs => signedObjects cs

/-- The URLs a journal shows handed to the encoder. -/
def encodedURLs : List Call → List String
  | [] => []
  | .Encode url :: cs => url :: encodedURLs cs
  | _ :: cs => encodedURLs cs

/-- The keys a journal shows drawn. -/
def drawnKeys : List Call → List String
  | [] => []
  | .uniqueId key :: cs => key :: drawnKeys cs
  | _ :: cs => drawnKeys cs

/-- The message and status of the `http.Error` calls of a journal. -/
def errorCalls : List Call → List (String × Nat)
  | [] => []
  | .Error error code :: cs => (error, code) :: errorCalls cs
  | _ :: cs => errorCalls cs

/-- The options of the `storage.SignedURL` calls of a journal. -/
def signedOptions : List Call → List SignedURLOptions
  | [] => []
  | .SignedURL _ _ opts :: cs => opts :: signedOptions cs
  | _ :: cs => signedOptions cs

/-- The next `n` results of `rd.Intn(len(alphanum))` from generator state `s`. -/
def draws {σ : Type} (Intn : Nat → σ → Nat × σ) : Nat → σ → List Nat
  | 0, _ => []
  | n + 1, s => (Intn alphanum.length s).1 :: draws Intn n (Intn alphanum.length s).2

/-- The sample environment with a generator that always returns 0. -/
def stuckEnv : Env Nat :=
  { sampleEnv with Intn := fun _ s => (0, s + 1) }

/-- The sample environment with a signing authority that refuses. -/
def refusingEnv : Env Nat :=
  { sampleEnv with SignBlob := fun _ _ => .error (.lib "iam: permission denied") }

/-- The sample environment with a signing authority whose answer `AQID!` is
not base64. -/
def garbledEnv : Env Nat :=
  { sampleEnv with SignBlob := fun _ _ => .ok "AQID!" }

/-- The sample environment with a response writer whose `Write` returns an
error. -/
def brokenPipeEnv : Env Nat :=
  { sampleEnv with writeError := fun _ => some (.lib "write: broken pipe") }

/-- Whether a text is well-formed JSON: one value with nothing but white
space around it.  A malformed body is one that is not. -/
def isJSONText (text : String) : Bool :=
  match parseValue maxNestingDepth text.data with
  | .ok (_, rest) => (skipSpace rest).isEmpty
  | .error _ => false

/-- Whether every member stored under the field's key is `null`. -/
def noContentType : List (List Char × JValue) → Bool
  | [] => true
  | (_, .null) :: ms => noContentType ms
  | (key, _) :: ms => !matchesContentType key && noContentType ms

/-- Whether the content type is missing from a request body: its first JSON
value is `null`, or an object in which no member gives the field
`contentType` a value. -/
def contentTypeMissing (stream : String) : Bool :=
  match skipSpace stream.data with
  | [] => false
  | c :: rest =>
    match parseValue maxNestingDepth (c :: rest) with
    | .ok (.null, _) => true
    | .ok (.obj ms, _) => noContentType ms
    | _ => false

/-! ## The key generator -/

theorem alphanum_length : alphanum.length = 62 := by decide

/-- Every symbol of `alphanum` is an ASCII letter or digit. -/
theorem alphanum_chars : ∀ c ∈ alphanum.data,
    ('A' ≤ c ∧ c ≤ 'Z') ∨ ('a' ≤ c ∧ c ≤ 'z') ∨ ('0' ≤ c ∧ c ≤ '9') := by decide

/-- Invariant of the loop of `uniqueId`: with `n` iterations left at index
`i` of a buffer of `i + n` cells whose first `i` cells hold symbols of the
alphabet, an in-range generator makes the loop end with all cells filled. -/
theorem uniqueIdLoop_spec {σ : Type} (Intn : Nat → σ → Nat × σ)
    (hI : ∀ s, (Intn 62 s).1 < 62) :
    ∀ (n i : Nat) (s : σ) (b : List Char), b.length = i + n →
      (∀ j, j < i → ∃ c, b[j]? = some c ∧ c ∈ alphanum.data) →
      ∃ b' s', uniqueIdLoop Intn n i s b = some (b', s') ∧ b'.length = b.length ∧
        ∀ j, j < i + n → ∃ c, b'[j]? = some c ∧ c ∈ alphanum.data := by
  intro n
  induction n with
  | zero =>
    intro i s b _ hb
    exact ⟨b, s, rfl, rfl, fun j hj => hb j (by omega)⟩
  | succ n ih =>
    intro i s b hlen hb
    have hr : (Intn alphanum.length s).1 < alphanum.data.length := by
      have := hI s
      rw [alphanum_length]
      exact this
    obtain ⟨c, hc⟩ : ∃ c, alphanum.data[(Intn alphanum.length s).1]? = some c :=
      ⟨_, List.getElem?_eq_getElem hr⟩
    have hmem : c ∈ alphanum.data := List.mem_iff_getElem?.mpr ⟨_, hc⟩
    have hstep : uniqueIdLoop Intn (n + 1) i s b =
        uniqueIdLoop Intn n (i + 1) (Intn alphanum.length s).2 (b.set i c) := by
      simp only [uniqueIdLoop, hc]
    have hlen' : (b.set i c).length = (i + 1) + n := by
      rw [List.length_set]; omega
    have hinv : ∀ j, j < i + 1 → ∃ d, (b.set i c)[j]? = some d ∧ d ∈ alphanum.data := by
      intro j hj
      by_cases hji : j = i
      · subst hji
        refine ⟨c, ?_, hmem⟩
        exact List.getElem?_set_self (by omega)
      · rw [List.getElem?_set_ne (Ne.symm hji)]
        exact hb j (by omega)
    obtain ⟨b', s', h1, h2, h3⟩ := ih (i + 1) (Intn alphanum.length s).2 (b.set i c) hlen' hinv
    refine ⟨b', s', hstep.trans h1, ?_, ?_⟩
    · rw [h2, List.length_set]
    · intro j hj
      exact h3 j (by omega)

/-- C1: with a generator whose `Intn(62)` is always below 62, `uniqueId`
succeeds from every generator state (no index is out of range) and returns a
string of exactly 20 characters, each a symbol of the 62-symbol alphabet
`alphanum`, that is a letter `A-Z`, `a-z` or a digit `0-9`. -/
theorem uniqueId_twenty_alphanumeric {σ : Type} (Intn : Nat → σ → Nat × σ)
    (hI : ∀ s, (Intn 62 s).1 < 62) (s : σ) :
    alphanum.length = 62 ∧
    ∃ key s', uniqueId Intn s = some (key, s') ∧ key.length = 20 ∧
      ∀ c ∈ key.data, c ∈ alphanum.data ∧
        (('A' ≤ c ∧ c ≤ 'Z') ∨ ('a' ≤ c ∧ c ≤ 'z') ∨ ('0' ≤ c ∧ c ≤ '9')) := by
  refine ⟨alphanum_length, ?_⟩
  obtain ⟨b', s', h1, h2, h3⟩ := uniqueIdLoop_spec Intn hI 20 0 s
    (List.replicate 20 (Char.ofNat 0)) (by simp) (fun j hj => absurd hj (Nat.not_lt_zero j))
  refine ⟨String.mk b', s', ?_, ?_, ?_⟩
  · simp only [uniqueId, h1]
  · show b'.length = 20
    rw [h2]; simp
  · intro c hc
    have hc' : c ∈ b' := hc
    obtain ⟨j, hj, hjc⟩ := List.getElem_of_mem hc'
    have hj20 : j < 0 + 20 := by
      rw [h2] at hj; simpa using hj
    obtain ⟨d, hd, hmem⟩ := h3 j hj20
    rw [List.getElem?_eq_getElem hj, hjc] at hd
    have hcd : c = d := by simpa using hd
    subst hcd
    exact ⟨hmem, alphanum_chars c hmem⟩

/-- C1 at the counter generator `s ↦ (s mod 62, s + 7)` in state 3. -/
theorem uniqueId_twenty_alphanumeric_witness :
    alphanum.length = 62 ∧
    ∃ key s', uniqueId (fun _ (s : Nat) => (s % 62, s + 7)) 3 = some (key, s') ∧
      key.length = 20 ∧
      ∀ c ∈ key.data, c ∈ alphanum.data ∧
        (('A' ≤ c ∧ c ≤ 'Z') ∨ ('a' ≤ c ∧ c ≤ 'z') ∨ ('0' ≤ c ∧ c ≤ '9')) :=
  uniqueId_twenty_alphanumeric (fun _ (s : Nat) => (s % 62, s + 7))
    (fun s => Nat.mod_lt s (by decide)) 3

/-! ## `strings.Contains` finds exactly the substrings -/

theorem HasPrefix_iff (s p : List Char) : HasPrefix s p = true ↔ p <+: s := by
  induction p generalizing s with
  | nil => simp [HasPrefix]
  | cons a p ih =>
    cases s with
    | nil => simp [HasPrefix]
    | cons c s =>
      simp only [HasPrefix, Bool.and_eq_true, decide_eq_true_eq, ih, List.cons_prefix_cons]
      constructor
      · rintro ⟨h1, h2⟩; exact ⟨h1.symm, h2⟩
      · rintro ⟨h1, h2⟩; exact ⟨h1.symm, h2⟩

theorem IndexFrom_nonneg_iff (substr : List Char) :
    ∀ (s : List Char) (i : Int), 0 ≤ i → (0 ≤ IndexFrom substr s i ↔ substr <:+: s) := by
  intro s
  induction s with
  | nil =>
    intro i hi
    by_cases h : HasPrefix [] substr = true
    · simp only [IndexFrom, h, if_true, hi, true_iff]
      exact ((HasPrefix_iff _ _).mp h).isInfix
    · have h' : ¬ substr <:+: [] := fun hin => by
        have : substr = [] := List.eq_nil_of_infix_nil hin
        subst this
        exact h (by simp [HasPrefix])
      simp [IndexFrom, h, h']
  | cons c s ih =>
    intro i hi
    by_cases h : HasPrefix (c :: s) substr = true
    · simp only [IndexFrom, h, if_true, hi, true_iff]
      exact ((HasPrefix_iff _ _).mp h).isInfix
    · have hp : ¬ substr <+: c :: s := fun hp => h ((HasPrefix_iff _ _).mpr hp)
      simp only [IndexFrom, h, Bool.false_eq_true, if_false]
      rw [ih (i + 1) (by omega), List.infix_cons_iff]
      simp [hp]

/-- The function `strings.Contains` holds exactly when `substr` occurs in `s`
as a run of consecutive characters. -/
theorem Contains_iff (s substr : String) :
    Contains s substr = true ↔ substr.data <:+: s.data := by
  simp only [Contains, Index, decide_eq_true_eq, ge_iff_le]
  exact IndexFrom_nonneg_iff substr.data s.data 0 (le_refl 0)

/-! ## Reading a journal -/

theorem signedObjects_append (l₁ l₂ : List Call) :
    signedObjects (l₁ ++ l₂) = signedObjects l₁ ++ signedObjects l₂ := by
  induction l₁ with
  | nil => rfl
  | cons a l ih => cases a <;> simp [signedObjects, ih]

theorem signedOptions_append (l₁ l₂ : List Call) :
    signedOptions (l₁ ++ l₂) = signedOptions l₁ ++ signedOptions l₂ := by
  induction l₁ with
  | nil => rfl
  | cons a l ih => cases a <;> simp [signedOptions, ih]

theorem signerCalls_append (l₁ l₂ : List Call) :
    signerCalls (l₁ ++ l₂) = signerCalls l₁ ++ signerCalls l₂ := by
  induction l₁ with
  | nil => rfl
  | cons a l ih => cases a <;> simp [signerCalls, ih]

theorem encodedURLs_append (l₁ l₂ : List Call) :
    encodedURLs (l₁ ++ l₂) = encodedURLs l₁ ++ encodedURLs l₂ := by
  induction l₁ with
  | nil => rfl
  | cons a l ih => cases a <;> simp [encodedURLs, ih]

theorem drawnKeys_append (l₁ l₂ : List Call) :
    drawnKeys (l₁ ++ l₂) = drawnKeys l₁ ++ drawnKeys l₂ := by
  induction l₁ with
  | nil => rfl
  | cons a l ih => cases a <;> simp [drawnKeys, ih]

theorem errorCalls_append (l₁ l₂ : List Call) :
    errorCalls (l₁ ++ l₂) = errorCalls l₁ ++ errorCalls l₂ := by
  induction l₁ with
  | nil => rfl
  | cons a l ih => cases a <;> simp [errorCalls, ih]

theorem errorCalls_signer (l : List SignerCall) :
    errorCalls (l.map Call.signer) = [] := by
  induction l with
  | nil => rfl
  | cons a l ih => simp [errorCalls, ih]

theorem signedObjects_signer (l : List SignerCall) :
    signedObjects (l.map Call.signer) = [] := by
  induction l with
  | nil => rfl
  | cons a l ih => simp [signedObjects, ih]

theorem signedOptions_signer (l : List SignerCall) :
    signedOptions (l.map Call.signer) = [] := by
  induction l with
  | nil => rfl
  | cons a l ih => simp [signedOptions, ih]

theorem signerCalls_signer (l : List SignerCall) :
    signerCalls (l.map Call.signer) = l := by
  induction l with
  | nil => rfl
  | cons a l ih => simp [signerCalls, ih]

theorem encodedURLs_signer (l : List SignerCall) :
    encodedURLs (l.map Call.signer) = [] := by
  induction l with
  | nil => rfl
  | cons a l ih => simp [encodedURLs, ih]

theorem drawnKeys_signer (l : List SignerCall) :
    drawnKeys (l.map Call.signer) = [] := by
  induction l with
  | nil => rfl
  | cons a l ih => simp [drawnKeys, ih]

/-- An in-range generator lets `uniqueId` return. -/
theorem uniqueId_returns {σ : Type} (Intn : Nat → σ → Nat × σ)
    (hI : ∀ s, (Intn 62 s).1 < 62) (s : σ) :
    ∃ key s', uniqueId Intn s = some (key, s') := by
  obtain ⟨b', s', h1, _, _⟩ := uniqueIdLoop_spec Intn hI 20 0 s
    (List.replicate 20 (Char.ofNat 0)) (by simp) (fun j hj => absurd hj (Nat.not_lt_zero j))
  exact ⟨String.mk b', s', by simp only [uniqueId, h1]⟩

/-! ## The handler -/

/-- The response writer after lines 86-87. -/
theorem uploadHandler_headers_set :
    ((ResponseWriter.mk [] none "").Set "Access-Control-Allow-Headers" "Content-Type").Set
        "Access-Control-Allow-Origin" "*" =
      ⟨[("Access-Control-Allow-Headers", "Content-Type"),
        ("Access-Control-Allow-Origin", "*")], none, ""⟩ := by decide

/-- The run of the handler when `storage.SignedURL` returns an error: the
answer is `http.Error` with status 500. -/
theorem uploadHandler_of_signing_error {σ : Type} (env : Env σ) (rd rd' : σ) (r : Request)
    (body : uploadRequest) (key : String) (err : GoError)
    (hm : r.Method ≠ "OPTIONS")
    (hd : jsonDecode r.Body { ContentType := "" } = .ok body)
    (hk : uniqueId env.Intn rd = some (key, rd'))
    (hs : (SignedURL env env.projectId ("images/" ++ key ++ "." ++ inferExt body)
      (buildOptions env body)).1 = .error err) :
    uploadHandler env rd r = some
      { w := httpError env ⟨[("Access-Control-Allow-Headers", "Content-Type"),
          ("Access-Control-Allow-Origin", "*")], none, ""⟩ (err.Error env)
          StatusInternalServerError
        rd := rd'
        calls := [Call.Decode r.Body, Call.uniqueId key,
          Call.SignedURL env.projectId ("images/" ++ key ++ "." ++ inferExt body)
            (buildOptions env body)] ++
          (SignedURL env env.projectId ("images/" ++ key ++ "." ++ inferExt body)
            (buildOptions env body)).2.map Call.signer ++
          [Call.Error (err.Error env) StatusInternalServerError] } := by
  rcases hsu : SignedURL env env.projectId ("images/" ++ key ++ "." ++ inferExt body)
    (buildOptions env body) with ⟨res, calls⟩
  rw [hsu] at hs
  simp only at hs
  subst hs
  simp only [uploadHandler, hm, if_false, hd, hk, hsu, uploadHandler_headers_set]

/-- The run of the handler when signing succeeds and the writer takes the
encoded body. -/
theorem uploadHandler_of_written {σ : Type} (env : Env σ) (rd rd' : σ) (r : Request)
    (body : uploadRequest) (key url : String)
    (hm : r.Method ≠ "OPTIONS")
    (hd : jsonDecode r.Body { ContentType := "" } = .ok body)
    (hk : uniqueId env.Intn rd = some (key, rd'))
    (hs : (SignedURL env env.projectId ("images/" ++ key ++ "." ++ inferExt body)
      (buildOptions env body)).1 = .ok url)
    (hw : env.writeError (encodeRes url) = none) :
    uploadHandler env rd r = some
      { w := (Encode env ⟨[("Access-Control-Allow-Headers", "Content-Type"),
          ("Access-Control-Allow-Origin", "*")], none, ""⟩ url).1
        rd := rd'
        calls := [Call.Decode r.Body, Call.uniqueId key,
          Call.SignedURL env.projectId ("images/" ++ key ++ "." ++ inferExt body)
            (buildOptions env body)] ++
          (SignedURL env env.projectId ("images/" ++ key ++ "." ++ inferExt body)
            (buildOptions env body)).2.map Call.signer ++ [Call.Encode url] } := by
  rcases hsu : SignedURL env env.projectId ("images/" ++ key ++ "." ++ inferExt body)
    (buildOptions env body) with ⟨res, calls⟩
  rw [hsu] at hs
  simp only at hs
  subst hs
  simp only [uploadHandler, hm, if_false, hd, hk, hsu, uploadHandler_headers_set, Encode,
    ResponseWriter.Write, hw]

/-- The run of the handler when signing succeeds and the writer returns an
error for the encoded body: lines 129-133 answer with `http.Error`. -/
theorem uploadHandler_of_write_error {σ : Type} (env : Env σ) (rd rd' : σ) (r : Request)
    (body : uploadRequest) (key url : String) (err : GoError)
    (hm : r.Method ≠ "OPTIONS")
    (hd : jsonDecode r.Body { ContentType := "" } = .ok body)
    (hk : uniqueId env.Intn rd = some (key, rd'))
    (hs : (SignedURL env env.projectId ("images/" ++ key ++ "." ++ inferExt body)
      (buildOptions env body)).1 = .ok url)
    (hw : env.writeError (encodeRes url) = some err) :
    uploadHandler env rd r = some
      { w := httpError env (Encode env ⟨[("Access-Control-Allow-Headers", "Content-Type"),
          ("Access-Control-Allow-Origin", "*")], none, ""⟩ url).1 (err.Error env)
          StatusInternalServerError
        rd := rd'
        calls := [Call.Decode r.Body, Call.uniqueId key,
          Call.SignedURL env.projectId ("images/" ++ key ++ "." ++ inferExt body)
            (buildOptions env body)] ++
          (SignedURL env env.projectId ("images/" ++ key ++ "." ++ inferExt body)
            (buildOptions env body)).2.map Call.signer ++
          [Call.Encode url, Call.Error (err.Error env) StatusInternalServerError] } := by
  rcases hsu : SignedURL env env.projectId ("images/" ++ key ++ "." ++ inferExt body)
    (buildOptions env body) with ⟨res, calls⟩
  rw [hsu] at hs
  simp only at hs
  subst hs
  simp only [uploadHandler, hm, if_false, hd, hk, hsu, uploadHandler_headers_set, Encode,
    ResponseWriter.Write, hw]

/-- The run of the handler when the decoder rejects the body. -/
theorem uploadHandler_of_decode_error {σ : Type} (env : Env σ) (rd : σ) (r : Request)
    (err : JsonError)
    (hm : r.Method ≠ "OPTIONS")
    (hd : jsonDecode r.Body { ContentType := "" } = .error err) :
    uploadHandler env rd r = some
      { w := httpError env ⟨[("Access-Control-Allow-Headers", "Content-Type"),
          ("Access-Control-Allow-Origin", "*")], none, ""⟩ (env.jsonErrorText err)
          StatusBadRequest
        rd := rd
        calls := [Call.Decode r.Body, Call.Error (env.jsonErrorText err) StatusBadRequest] } := by
  simp only [uploadHandler, hm, if_false, hd, uploadHandler_headers_set, GoError.Error]

/-- What `http.Error` leaves on the writer of lines 86-87. -/
theorem httpError_fresh {σ : Type} (env : Env σ) (error : String) (code : Nat) :
    httpError env ⟨[("Access-Control-Allow-Headers", "Content-Type"),
        ("Access-Control-Allow-Origin", "*")], none, ""⟩ error code =
      ⟨[("Access-Control-Allow-Headers", "Content-Type"), ("Access-Control-Allow-Origin", "*"),
        ("Content-Type", "text/plain; charset=utf-8"), ("X-Content-Type-Options", "nosniff")],
        some code, error ++ "\n"⟩ := by
  simp [httpError, ResponseWriter.Write, ResponseWriter.sniff, ResponseWriter.WriteHeader,
    ResponseWriter.Set]

/-- What the encoder leaves on the writer of lines 86-87. -/
theorem Encode_fresh {σ : Type} (env : Env σ) (url : String) :
    (Encode env ⟨[("Access-Control-Allow-Headers", "Content-Type"),
        ("Access-Control-Allow-Origin", "*")], none, ""⟩ url).1 =
      ⟨[("Access-Control-Allow-Headers", "Content-Type"), ("Access-Control-Allow-Origin", "*"),
        ("Content-Type", env.DetectContentType (encodeRes url))], some 200, encodeRes url⟩ := by
  simp [Encode, ResponseWriter.Write, ResponseWriter.sniff, ResponseWriter.WriteHeader,
    ResponseWriter.Set]

/-- What `http.Error` leaves on the writer after a write of the encoder that
returned an error: the status stays the 200 of that write. -/
theorem httpError_after_Encode {σ : Type} (env : Env σ) (url error : String) (code : Nat) :
    httpError env (Encode env ⟨[("Access-Control-Allow-Headers", "Content-Type"),
        ("Access-Control-Allow-Origin", "*")], none, ""⟩ url).1 error code =
      ⟨[("Access-Control-Allow-Headers", "Content-Type"), ("Access-Control-Allow-Origin", "*"),
        ("Content-Type", "text/plain; charset=utf-8"), ("X-Content-Type-Options", "nosniff")],
        some 200, encodeRes url ++ (error ++ "\n")⟩ := by
  rw [Encode_fresh]
  simp [httpError, ResponseWriter.Write, ResponseWriter.sniff, ResponseWriter.WriteHeader,
    ResponseWriter.Set]

/-- The run of the handler on a request that is not `OPTIONS`, whose body
decodes to `body`, when `uniqueId` returns `key`: the journal starts with the
decoder, the key and the one call of `storage.SignedURL`, with what that call
did below it; what follows are the encoder and `http.Error` only. -/
theorem uploadHandler_decoded {σ : Type} (env : Env σ) (rd rd' : σ) (r : Request)
    (body : uploadRequest) (key : String)
    (hm : r.Method ≠ "OPTIONS")
    (hd : jsonDecode r.Body { ContentType := "" } = .ok body)
    (hk : uniqueId env.Intn rd = some (key, rd')) :
    ∃ out tail, uploadHandler env rd r = some out ∧ out.rd = rd' ∧
      out.calls =
        [Call.Decode r.Body, Call.uniqueId key,
          Call.SignedURL env.projectId ("images/" ++ key ++ "." ++ inferExt body)
            (buildOptions env body)] ++
        (SignedURL env env.projectId ("images/" ++ key ++ "." ++ inferExt body)
          (buildOptions env body)).2.map Call.signer ++ tail ∧
      signedObjects tail = [] ∧ signedOptions tail = [] ∧ signerCalls tail = [] ∧
      drawnKeys tail = [] ∧ (out.w.Code = some 200 ∨ out.w.Code = some 500) := by
  cases hs : (SignedURL env env.projectId ("images/" ++ key ++ "." ++ inferExt body)
      (buildOptions env body)).1 with
  | error err =>
    exact ⟨_, [Call.Error (err.Error env) StatusInternalServerError],
      uploadHandler_of_signing_error env rd rd' r body key err hm hd hk hs, rfl,
      rfl, rfl, rfl, rfl, rfl, Or.inr (by rw [httpError_fresh]; rfl)⟩
  | ok url =>
    cases hw : env.writeError (encodeRes url) with
    | none =>
      exact ⟨_, [Call.Encode url],
        uploadHandler_of_written env rd rd' r body key url hm hd hk hs hw, rfl,
        rfl, rfl, rfl, rfl, rfl, Or.inl (by rw [Encode_fresh])⟩
    | some err =>
      exact ⟨_, [Call.Encode url, Call.Error (err.Error env) StatusInternalServerError],
        uploadHandler_of_write_error env rd rd' r body key url err hm hd hk hs hw,
        rfl, rfl, rfl, rfl, rfl, rfl, Or.inl (by rw [httpError_after_Encode])⟩

/-- What `inferExt` returns, in terms of the substrings of the content type. -/
theorem inferExt_spec (c : String) :
    ("png".data <:+: c.data → inferExt ⟨c⟩ = "png") ∧
    (¬ "png".data <:+: c.data → ("jpeg".data <:+: c.data ∨ "jpg".data <:+: c.data) →
      inferExt ⟨c⟩ = "jpg") ∧
    (¬ "png".data <:+: c.data → ¬ "jpeg".data <:+: c.data → ¬ "jpg".data <:+: c.data →
      inferExt ⟨c⟩ = "") := by
  have hpng := Contains_iff c "png"
  have hjpeg := Contains_iff c "jpeg"
  have hjpg := Contains_iff c "jpg"
  refine ⟨?_, ?_, ?_⟩
  · intro h
    simp [inferExt, hpng.mpr h]
  · intro h1 h2
    have n1 : Contains c "png" = false := by
      cases hc : Contains c "png" with
      | false => rfl
      | true => exact absurd (hpng.mp hc) h1
    rcases h2 with h2 | h2
    · simp [inferExt, n1, hjpeg.mpr h2]
    · by_cases hj : Contains c "jpeg" = true
      · simp [inferExt, n1, hj]
      · simp [inferExt, n1, hj, hjpg.mpr h2]
  · intro h1 h2 h3
    have n1 : Contains c "png" = false := by
      cases hc : Contains c "png" with
      | false => rfl
      | true => exact absurd (hpng.mp hc) h1
    have n2 : Contains c "jpeg" = false := by
      cases hc : Contains c "jpeg" with
      | false => rfl
      | true => exact absurd (hjpeg.mp hc) h2
    have n3 : Contains c "jpg" = false := by
      cases hc : Contains c "jpg" with
      | false => rfl
      | true => exact absurd (hjpg.mp hc) h3
    simp [inferExt, n1, n2, n3]

/-- C2: for a request that is not `OPTIONS` whose body decodes to content
type `c`, and the key `key` that `uniqueId` returns, the one call of
`storage.SignedURL` is for the object `"images/" ++ key ++ "." ++ ext`, where
`ext` is `png` if `png` occurs in `c`, else `jpg` if `jpeg` or `jpg` occurs in
`c`, else empty; so `image/png` gives a path ending in `.png`, `image/jpeg`
and `image/jpg` one ending in `.jpg`, and `application/pdf` one ending in a
bare dot. -/
theorem uploadHandler_object_path {σ : Type} (env : Env σ) (rd rd' : σ) (r : Request)
    (c key : String)
    (hm : r.Method ≠ "OPTIONS")
    (hd : jsonDecode r.Body { ContentType := "" } = .ok ⟨c⟩)
    (hk : uniqueId env.Intn rd = some (key, rd')) :
    ∃ out path ext, uploadHandler env rd r = some out ∧
      signedObjects out.calls = [(env.projectId, path)] ∧
      path = "images/" ++ key ++ "." ++ ext ∧
      ("png".data <:+: c.data → ext = "png") ∧
      (¬ "png".data <:+: c.data → ("jpeg".data <:+: c.data ∨ "jpg".data <:+: c.data) →
        ext = "jpg") ∧
      (¬ "png".data <:+: c.data → ¬ "jpeg".data <:+: c.data → ¬ "jpg".data <:+: c.data →
        ext = "") ∧
      (c = "image/png" → path = "images/" ++ key ++ ".png") ∧
      (c = "image/jpeg" → path = "images/" ++ key ++ ".jpg") ∧
      (c = "image/jpg" → path = "images/" ++ key ++ ".jpg") ∧
      (c = "application/pdf" → path = "images/" ++ key ++ ".") := by
  obtain ⟨out, tail, ho, _, hcalls, ht, _⟩ := uploadHandler_decoded env rd rd' r ⟨c⟩ key hm hd hk
  obtain ⟨e1, e2, e3⟩ := inferExt_spec c
  refine ⟨out, "images/" ++ key ++ "." ++ inferExt ⟨c⟩, inferExt ⟨c⟩, ho, ?_, rfl, e1, e2, e3,
    ?_, ?_, ?_, ?_⟩
  · rw [hcalls, signedObjects_append, signedObjects_append, signedObjects_signer, ht]
    rfl
  · intro h; subst h
    have : inferExt ⟨"image/png"⟩ = "png" := by decide
    rw [this, String.append_assoc _ "." "png"]; rfl
  · intro h; subst h
    have : inferExt ⟨"image/jpeg"⟩ = "jpg" := by decide
    rw [this, String.append_assoc _ "." "jpg"]; rfl
  · intro h; subst h
    have : inferExt ⟨"image/jpg"⟩ = "jpg" := by decide
    rw [this, String.append_assoc _ "." "jpg"]; rfl
  · intro h; subst h
    have : inferExt ⟨"application/pdf"⟩ = "" := by decide
    rw [this, String.append_empty]

/-- C2 at the sample environment, generator state 0, for a PNG upload. -/
theorem uploadHandler_object_path_witness :
    ∃ out path ext,
      uploadHandler sampleEnv 0 ⟨"POST", "\x7b\"contentType\":\"image/png\"\x7d"⟩ = some out ∧
      signedObjects out.calls = [(sampleEnv.projectId, path)] ∧
      path = "images/" ++ "ABCDEFGHIJKLMNOPQRST" ++ "." ++ ext ∧
      ("png".data <:+: "image/png".data → ext = "png") ∧
      (¬ "png".data <:+: "image/png".data →
        ("jpeg".data <:+: "image/png".data ∨ "jpg".data <:+: "image/png".data) →
        ext = "jpg") ∧
      (¬ "png".data <:+: "image/png".data → ¬ "jpeg".data <:+: "image/png".data →
        ¬ "jpg".data <:+: "image/png".data → ext = "") ∧
      ("image/png" = "image/png" → path = "images/" ++ "ABCDEFGHIJKLMNOPQRST" ++ ".png") ∧
      ("image/png" = "image/jpeg" → path = "images/" ++ "ABCDEFGHIJKLMNOPQRST" ++ ".jpg") ∧
      ("image/png" = "image/jpg" → path = "images/" ++ "ABCDEFGHIJKLMNOPQRST" ++ ".jpg") ∧
      ("image/png" = "application/pdf" → path = "images/" ++ "ABCDEFGHIJKLMNOPQRST" ++ ".") :=
  uploadHandler_object_path sampleEnv 0 20 ⟨"POST", "\x7b\"contentType\":\"image/png\"\x7d"⟩
    "image/png" "ABCDEFGHIJKLMNOPQRST" (by decide) (by decide) (by decide)

/-- C3: for a request that is not `OPTIONS` whose body decodes to content
type `c`, with `env.Now` the issuance time in nanoseconds and an in-range
generator, the handler makes one call of `storage.SignedURL`, for the bucket
`projectId`, with the options `buildOptions env ⟨c⟩`, which depend on the
request through `c` only: method `PUT`, expiry `Now` plus 600 seconds,
content type `c`, identity `<projectId>@appspot.gserviceaccount.com`, scheme
V4. -/
theorem uploadHandler_signing_options {σ : Type} (env : Env σ) (rd : σ) (r : Request)
    (c : String)
    (hm : r.Method ≠ "OPTIONS")
    (hd : jsonDecode r.Body { ContentType := "" } = .ok ⟨c⟩)
    (hI : ∀ s, (env.Intn 62 s).1 < 62) :
    ∃ out opts object, uploadHandler env rd r = some out ∧
      signedOptions out.calls = [opts] ∧
      signedObjects out.calls = [(env.projectId, object)] ∧
      opts = buildOptions env ⟨c⟩ ∧
      opts.Method = "PUT" ∧
      opts.Expires = env.Now + 600 * 1000000000 ∧
      opts.ContentType = c ∧
      opts.GoogleAccessID = env.projectId ++ "@appspot.gserviceaccount.com" ∧
      opts.Scheme = SigningScheme.SigningSchemeV4 := by
  obtain ⟨key, rd', hk⟩ := uniqueId_returns env.Intn hI rd
  obtain ⟨out, tail, ho, _, hcalls, hnil2, hnil1, _⟩ :=
    uploadHandler_decoded env rd rd' r ⟨c⟩ key hm hd hk
  refine ⟨out, buildOptions env ⟨c⟩, "images/" ++ key ++ "." ++ inferExt ⟨c⟩, ho, ?_, ?_, rfl,
    rfl, ?_, rfl, rfl, rfl⟩
  · rw [hcalls, signedOptions_append, signedOptions_append, signedOptions_signer, hnil1]
    rfl
  · rw [hcalls, signedObjects_append, signedObjects_append, signedObjects_signer, hnil2]
    rfl
  · show env.Now + 10 * Minute = env.Now + 600 * 1000000000
    simp [Minute]

/-- C3 at the sample environment, generator state 0, for a PNG upload. -/
theorem uploadHandler_signing_options_witness :
    ∃ out opts object,
      uploadHandler sampleEnv 0 ⟨"POST", "\x7b\"contentType\":\"image/png\"\x7d"⟩ = some out ∧
      signedOptions out.calls = [opts] ∧
      signedObjects out.calls = [(sampleEnv.projectId, object)] ∧
      opts = buildOptions sampleEnv ⟨"image/png"⟩ ∧
      opts.Method = "PUT" ∧
      opts.Expires = sampleEnv.Now + 600 * 1000000000 ∧
      opts.ContentType = "image/png" ∧
      opts.GoogleAccessID = sampleEnv.projectId ++ "@appspot.gserviceaccount.com" ∧
      opts.Scheme = SigningScheme.SigningSchemeV4 :=
  uploadHandler_signing_options sampleEnv 0 ⟨"POST", "\x7b\"contentType\":\"image/png\"\x7d"⟩
    "image/png" (by decide) (by decide) (fun s => Nat.mod_lt s (by decide))

/-- C7: an `OPTIONS` request, whatever its body and whatever the environment
(the signing authority included), is answered with status 200, an empty body
and the two CORS headers; nothing is called: the body is not decoded, no key
is drawn, the generator keeps its state, the signer is not reached. -/
theorem uploadHandler_options {σ : Type} (env : Env σ) (rd : σ) (body : String) :
    ∃ out, uploadHandler env rd ⟨"OPTIONS", body⟩ = some out ∧
      out.w.Code = some 200 ∧
      out.w.Body = "" ∧
      out.w.Header = [("Access-Control-Allow-Headers", "Content-Type"),
        ("Access-Control-Allow-Origin", "*")] ∧
      out.rd = rd ∧
      out.calls = [] := by
  simp only [uploadHandler, if_true]
  refine ⟨_, rfl, ?_, ?_, ?_, rfl, rfl⟩
  · simp [ResponseWriter.WriteHeader, ResponseWriter.Set, StatusOK]
  · simp [ResponseWriter.WriteHeader, ResponseWriter.Set]
  · simp [ResponseWriter.WriteHeader, ResponseWriter.Set]

/-- The text a call of `http.Error` writes is not empty. -/
theorem append_newline_ne_empty (msg : String) : msg ++ "\n" ≠ "" := by
  intro h
  have := congrArg String.length h
  simp [String.length_append] at this
  exact absurd this.2 (by decide)

/-- When the authority refuses, `storage.SignedURL` returns its error. -/
theorem SignedURL_error_of_SignBlob {σ : Type} (env : Env σ) (bucket object : String)
    (body : uploadRequest) (bytes : List Nat) (err : GoError)
    (hn : env.NewService = .ok ())
    (hb : env.stringToSign bucket object (buildOptions env body) = .ok bytes)
    (hs : env.SignBlob (serviceAccountId env) (String.mk (EncodeToString bytes)) = .error err) :
    (SignedURL env bucket object (buildOptions env body)).1 = .error err := by
  have hsb : (buildOptions env body).SignBytes bytes =
      (([], some err), [SignerCall.signBytes bytes, SignerCall.NewService,
        SignerCall.SignBlob (serviceAccountId env) (String.mk (EncodeToString bytes))]) := by
    show signBytes env bytes = _
    simp only [signBytes, hn, hs]
  simp only [SignedURL, hb, hsb]

/-- C5: for a request that is not `OPTIONS` (a `POST` in particular) whose
body decodes, when signing fails with error `err` the response has status 500,
its body is the text of `err` and a line feed, which is not empty, sent as
plain text, and the encoder is never called, so no object with a `url` field
is written; an error returned by the signing authority is what
`storage.SignedURL` returns, so it is such an `err`. -/
theorem uploadHandler_signing_failure {σ : Type} (env : Env σ) (rd rd' : σ) (r : Request)
    (body : uploadRequest) (key : String) (err : GoError)
    (hm : r.Method ≠ "OPTIONS")
    (hd : jsonDecode r.Body { ContentType := "" } = .ok body)
    (hk : uniqueId env.Intn rd = some (key, rd'))
    (hs : (SignedURL env env.projectId ("images/" ++ key ++ "." ++ inferExt body)
      (buildOptions env body)).1 = .error err) :
    (∃ out, uploadHandler env rd r = some out ∧
      out.w.Code = some 500 ∧
      out.w.Body = err.Error env ++ "\n" ∧
      out.w.Body ≠ "" ∧
      ("Content-Type", "text/plain; charset=utf-8") ∈ out.w.Header ∧
      encodedURLs out.calls = []) ∧
    (∀ bytes err',
      env.NewService = .ok () →
      env.stringToSign env.projectId ("images/" ++ key ++ "." ++ inferExt body)
        (buildOptions env body) = .ok bytes →
      env.SignBlob (serviceAccountId env) (String.mk (EncodeToString bytes)) = .error err' →
      (SignedURL env env.projectId ("images/" ++ key ++ "." ++ inferExt body)
        (buildOptions env body)).1 = .error err' ∧ err = err') := by
  have ho := uploadHandler_of_signing_error env rd rd' r body key err hm hd hk hs
  rw [httpError_fresh] at ho
  refine ⟨⟨_, ho, rfl, rfl, append_newline_ne_empty _, by simp, ?_⟩, ?_⟩
  · simp only [encodedURLs_append, encodedURLs_signer]
    rfl
  · intro bytes err' hn hb hsb
    have := SignedURL_error_of_SignBlob env env.projectId
      ("images/" ++ key ++ "." ++ inferExt body) body bytes err' hn hb hsb
    refine ⟨this, ?_⟩
    rw [hs] at this
    exact Except.error.inj this

/-- C5 at the environment whose signing authority refuses. -/
theorem uploadHandler_signing_failure_witness :
    (∃ out, uploadHandler refusingEnv 0 ⟨"POST", "\x7b\"contentType\":\"image/png\"\x7d"⟩ =
        some out ∧
      out.w.Code = some 500 ∧
      out.w.Body = (GoError.lib "iam: permission denied").Error refusingEnv ++ "\n" ∧
      out.w.Body ≠ "" ∧
      ("Content-Type", "text/plain; charset=utf-8") ∈ out.w.Header ∧
      encodedURLs out.calls = []) ∧
    (∀ bytes err',
      refusingEnv.NewService = .ok () →
      refusingEnv.stringToSign refusingEnv.projectId
        ("images/" ++ "ABCDEFGHIJKLMNOPQRST" ++ "." ++ inferExt ⟨"image/png"⟩)
        (buildOptions refusingEnv ⟨"image/png"⟩) = .ok bytes →
      refusingEnv.SignBlob (serviceAccountId refusingEnv)
        (String.mk (EncodeToString bytes)) = .error err' →
      (SignedURL refusingEnv refusingEnv.projectId
        ("images/" ++ "ABCDEFGHIJKLMNOPQRST" ++ "." ++ inferExt ⟨"image/png"⟩)
        (buildOptions refusingEnv ⟨"image/png"⟩)).1 = .error err' ∧
      GoError.lib "iam: permission denied" = err') :=
  uploadHandler_signing_failure refusingEnv 0 20
    ⟨"POST", "\x7b\"contentType\":\"image/png\"\x7d"⟩ ⟨"image/png"⟩ "ABCDEFGHIJKLMNOPQRST"
    (.lib "iam: permission denied") (by decide) (by decide) (by decide) (by decide)

/-! ## Base64 -/

theorem decodeMap_encodeTable : ∀ n : Fin 64, decodeMap (encodeTable n.val) = some n.val := by
  decide

theorem decodeMap_encodeTable_lt (n : Nat) (h : n < 64) : decodeMap (encodeTable n) = some n :=
  decodeMap_encodeTable ⟨n, h⟩

theorem decodeMap_pad : decodeMap '=' = none := by decide

theorem decodeFrom_quantum (len : Nat) (c0 c1 c2 c3 : Char) (v0 v1 v2 v3 : Nat)
    (rest : List Char) (si : Nat)
    (h0 : decodeMap c0 = some v0) (h1 : decodeMap c1 = some v1)
    (h2 : decodeMap c2 = some v2) (h3 : decodeMap c3 = some v3) :
    decodeFrom len (c0 :: c1 :: c2 :: c3 :: rest) si [] =
      (quantumBytes [v0, v1, v2, v3] ++ (decodeFrom len rest (si + 1 + 1 + 1 + 1) []).1,
        (decodeFrom len rest (si + 1 + 1 + 1 + 1) []).2) := by
  simp [decodeFrom, h0, h1, h2, h3]

theorem quantumBytes_three (b0 b1 b2 : Nat) (h0 : b0 < 256) (h1 : b1 < 256) (h2 : b2 < 256) :
    quantumBytes [(b0 * 65536 + b1 * 256 + b2) / 262144 % 64,
      (b0 * 65536 + b1 * 256 + b2) / 4096 % 64,
      (b0 * 65536 + b1 * 256 + b2) / 64 % 64,
      (b0 * 65536 + b1 * 256 + b2) % 64] = [b0, b1, b2] := by
  simp only [quantumBytes, List.getD_cons_zero, List.getD_cons_succ, List.length_cons,
    List.length_nil]
  simp
  refine ⟨?_, ?_, ?_⟩ <;> omega


theorem quantumBytes_two (b0 b1 : Nat) (h0 : b0 < 256) (h1 : b1 < 256) :
    quantumBytes [(b0 * 65536 + b1 * 256) / 262144 % 64,
      (b0 * 65536 + b1 * 256) / 4096 % 64,
      (b0 * 65536 + b1 * 256) / 64 % 64] = [b0, b1] := by
  simp only [quantumBytes, List.getD_cons_zero, List.getD_cons_succ, List.length_cons,
    List.length_nil, List.getD_nil]
  simp
  refine ⟨?_, ?_⟩ <;> omega

theorem quantumBytes_one (b0 : Nat) (h0 : b0 < 256) :
    quantumBytes [b0 * 65536 / 262144 % 64, b0 * 65536 / 4096 % 64] = [b0] := by
  simp only [quantumBytes, List.getD_cons_zero, List.getD_cons_succ, List.length_cons,
    List.length_nil, List.getD_nil]
  simp
  omega

/-- Decoding undoes encoding, from any offset. -/
theorem decodeFrom_EncodeToString (len : Nat) :
    ∀ (p : List Nat), (∀ b ∈ p, b < 256) → ∀ si,
      decodeFrom len (EncodeToString p) si [] = (p, none) := by
  intro p
  induction p using EncodeToString.induct with
  | case1 => intro _ si; simp [EncodeToString, decodeFrom]
  | case2 b0 =>
    intro hp si
    have h0 : b0 < 256 := hp b0 (by simp)
    have e0 := decodeMap_encodeTable_lt (b0 * 65536 / 262144 % 64) (Nat.mod_lt _ (by decide))
    have e1 := decodeMap_encodeTable_lt (b0 * 65536 / 4096 % 64) (Nat.mod_lt _ (by decide))
    simp only [EncodeToString, decodeFrom, e0, e1, decodeMap_pad, List.length_nil,
      List.nil_append, List.length_cons, List.cons_append, skipNewlines, afterPadding]
    simp [skipNewlines, quantumBytes_one b0 h0]
  | case3 b0 b1 =>
    intro hp si
    have h0 : b0 < 256 := hp b0 (by simp)
    have h1 : b1 < 256 := hp b1 (by simp)
    have e0 := decodeMap_encodeTable_lt ((b0 * 65536 + b1 * 256) / 262144 % 64)
      (Nat.mod_lt _ (by decide))
    have e1 := decodeMap_encodeTable_lt ((b0 * 65536 + b1 * 256) / 4096 % 64)
      (Nat.mod_lt _ (by decide))
    have e2 := decodeMap_encodeTable_lt ((b0 * 65536 + b1 * 256) / 64 % 64)
      (Nat.mod_lt _ (by decide))
    simp only [EncodeToString, decodeFrom, e0, e1, e2, decodeMap_pad, List.length_nil,
      List.nil_append, List.length_cons, List.cons_append, skipNewlines, afterPadding]
    simp
    exact quantumBytes_two b0 b1 h0 h1
  | case4 b0 b1 b2 rest ih =>
    intro hp si
    have h0 : b0 < 256 := hp b0 (by simp)
    have h1 : b1 < 256 := hp b1 (by simp)
    have h2 : b2 < 256 := hp b2 (by simp)
    have hrest : ∀ b ∈ rest, b < 256 := fun b hb => hp b (by simp [hb])
    have e0 := decodeMap_encodeTable_lt ((b0 * 65536 + b1 * 256 + b2) / 262144 % 64)
      (Nat.mod_lt _ (by decide))
    have e1 := decodeMap_encodeTable_lt ((b0 * 65536 + b1 * 256 + b2) / 4096 % 64)
      (Nat.mod_lt _ (by decide))
    have e2 := decodeMap_encodeTable_lt ((b0 * 65536 + b1 * 256 + b2) / 64 % 64)
      (Nat.mod_lt _ (by decide))
    have e3 := decodeMap_encodeTable_lt ((b0 * 65536 + b1 * 256 + b2) % 64)
      (Nat.mod_lt _ (by decide))
    rw [EncodeToString, decodeFrom_quantum len _ _ _ _ _ _ _ _ _ si e0 e1 e2 e3,
      ih hrest, quantumBytes_three b0 b1 b2 h0 h1 h2]
    rfl

/-- The method `DecodeString` undoes `EncodeToString` on every byte string. -/
theorem DecodeString_EncodeToString (p : List Nat) (hp : ∀ b ∈ p, b < 256) :
    DecodeString (String.mk (EncodeToString p)) = (p, none) :=
  decodeFrom_EncodeToString _ p hp 0

/-- C10, as the code has it: for a payload `p` of bytes, `signBytes` sends the
signing authority the identity
`projects/<projectId>/serviceAccounts/<projectId>@appspot.gserviceaccount.com`
and the standard base64 text of `p`, which decodes back to `p`; when the
authority answers `s64` the two results are those of the base64 decoding of
`s64`, so exactly `s` and no error when `s64` is the encoding of `s`; the
error result is set exactly when the client cannot be created, the authority
returns an error, or `s64` does not decode; with the error come no bytes in
the first two cases, and the bytes decoded before the corrupt position in the
third. -/
theorem signBytes_delegates {σ : Type} (env : Env σ) (p : List Nat)
    (hp : ∀ b ∈ p, b < 256) :
    serviceAccountId env =
      "projects/" ++ env.projectId ++ "/serviceAccounts/" ++
        (env.projectId ++ "@appspot.gserviceaccount.com") ∧
    DecodeString (String.mk (EncodeToString p)) = (p, none) ∧
    (env.NewService = .ok () →
      (signBytes env p).2 = [SignerCall.signBytes p, SignerCall.NewService,
        SignerCall.SignBlob (serviceAccountId env) (String.mk (EncodeToString p))]) ∧
    (∀ name bytesToSign, SignerCall.SignBlob name bytesToSign ∈ (signBytes env p).2 →
      name = serviceAccountId env ∧ bytesToSign = String.mk (EncodeToString p)) ∧
    (∀ s64, env.NewService = .ok () →
      env.SignBlob (serviceAccountId env) (String.mk (EncodeToString p)) = .ok s64 →
      (signBytes env p).1 =
        ((DecodeString s64).1, (DecodeString s64).2.map GoError.corruptInput) ∧
      ∀ s, (∀ b ∈ s, b < 256) → s64 = String.mk (EncodeToString s) →
        (signBytes env p).1 = (s, none)) ∧
    ((∃ err, (signBytes env p).1.2 = some err) ↔
      ((∃ err, env.NewService = .error err) ∨
       (∃ err, env.SignBlob (serviceAccountId env) (String.mk (EncodeToString p)) =
          .error err) ∨
       (∃ s64 offset,
          env.SignBlob (serviceAccountId env) (String.mk (EncodeToString p)) = .ok s64 ∧
          (DecodeString s64).2 = some offset))) ∧
    (∀ err, env.NewService = .error err → (signBytes env p).1 = ([], some err)) ∧
    (∀ err, env.NewService = .ok () →
      env.SignBlob (serviceAccountId env) (String.mk (EncodeToString p)) = .error err →
      (signBytes env p).1 = ([], some err)) := by
  refine ⟨rfl, DecodeString_EncodeToString p hp, ?_, ?_, ?_, ?_, ?_, ?_⟩
  · intro hn
    simp only [signBytes, hn]
    split <;> rfl
  · intro name bytesToSign hmem
    simp only [signBytes] at hmem
    split at hmem
    · simp at hmem
    · split at hmem <;> simpa using hmem
  · intro s64 hn hs
    refine ⟨by simp only [signBytes, hn, hs], ?_⟩
    intro s hs256 he
    subst he
    simp only [signBytes, hn, hs, DecodeString_EncodeToString s hs256, Option.map_none']
  · cases hn : env.NewService with
    | error e => simp [signBytes, hn]
    | ok u =>
      cases hs : env.SignBlob (serviceAccountId env) (String.mk (EncodeToString p)) with
      | error e => simp [signBytes, hn, hs]
      | ok s64 =>
        cases hdec : (DecodeString s64).2 with
        | none => simp [signBytes, hn, hs, hdec]
        | some off => simp [signBytes, hn, hs, hdec]
  · intro err hn
    simp only [signBytes, hn]
  · intro err hn hs
    simp only [signBytes, hn, hs]

/-- C10 at the sample environment for the payload 1, 2, 3. -/
theorem signBytes_delegates_witness :
    serviceAccountId sampleEnv =
      "projects/" ++ sampleEnv.projectId ++ "/serviceAccounts/" ++
        (sampleEnv.projectId ++ "@appspot.gserviceaccount.com") ∧
    DecodeString (String.mk (EncodeToString [1, 2, 3])) = ([1, 2, 3], none) ∧
    (sampleEnv.NewService = .ok () →
      (signBytes sampleEnv [1, 2, 3]).2 = [SignerCall.signBytes [1, 2, 3], SignerCall.NewService,
        SignerCall.SignBlob (serviceAccountId sampleEnv)
          (String.mk (EncodeToString [1, 2, 3]))]) ∧
    (∀ name bytesToSign,
      SignerCall.SignBlob name bytesToSign ∈ (signBytes sampleEnv [1, 2, 3]).2 →
      name = serviceAccountId sampleEnv ∧
        bytesToSign = String.mk (EncodeToString [1, 2, 3])) ∧
    (∀ s64, sampleEnv.NewService = .ok () →
      sampleEnv.SignBlob (serviceAccountId sampleEnv)
        (String.mk (EncodeToString [1, 2, 3])) = .ok s64 →
      (signBytes sampleEnv [1, 2, 3]).1 =
        ((DecodeString s64).1, (DecodeString s64).2.map GoError.corruptInput) ∧
      ∀ s, (∀ b ∈ s, b < 256) → s64 = String.mk (EncodeToString s) →
        (signBytes sampleEnv [1, 2, 3]).1 = (s, none)) ∧
    ((∃ err, (signBytes sampleEnv [1, 2, 3]).1.2 = some err) ↔
      ((∃ err, sampleEnv.NewService = .error err) ∨
       (∃ err, sampleEnv.SignBlob (serviceAccountId sampleEnv)
          (String.mk (EncodeToString [1, 2, 3])) = .error err) ∨
       (∃ s64 offset,
          sampleEnv.SignBlob (serviceAccountId sampleEnv)
            (String.mk (EncodeToString [1, 2, 3])) = .ok s64 ∧
          (DecodeString s64).2 = some offset))) ∧
    (∀ err, sampleEnv.NewService = .error err →
      (signBytes sampleEnv [1, 2, 3]).1 = ([], some err)) ∧
    (∀ err, sampleEnv.NewService = .ok () →
      sampleEnv.SignBlob (serviceAccountId sampleEnv)
        (String.mk (EncodeToString [1, 2, 3])) = .error err →
      (signBytes sampleEnv [1, 2, 3]).1 = ([], some err)) :=
  signBytes_delegates sampleEnv [1, 2, 3] (by decide)

/-- C10 fails as stated: when the signing authority answers `AQID!`, which is
not base64, `signBytes` returns the error `CorruptInputError(4)` together
with the bytes 1, 2, 3 decoded before the corrupt position, not an error
alone. -/
theorem signBytes_error_with_bytes :
    DecodeString "AQID!" = ([1, 2, 3], some 4) ∧
    garbledEnv.NewService = .ok () ∧
    garbledEnv.SignBlob (serviceAccountId garbledEnv)
      (String.mk (EncodeToString [9, 9, 9])) = .ok "AQID!" ∧
    (signBytes garbledEnv [9, 9, 9]).1 = ([1, 2, 3], some (GoError.corruptInput 4)) := by
  decide

/-! ## The JSON the encoder writes reads back -/

theorem hexVal_hexDigit : ∀ n : Fin 16, hexVal (hexDigit n.val) = some n.val := by decide

theorem parseString_quote (rest : List Char) : parseString ('"' :: rest) = .ok ([], rest) := by
  rw [parseString.eq_def]
  simp

theorem parseString_plain (c : Char) (rest : List Char) (h1 : c ≠ '"') (h2 : c ≠ '\\')
    (h3 : ¬ c.toNat < 0x20) : parseString (c :: rest) = consChar c (parseString rest) := by
  rw [parseString.eq_def]
  simp [h1, h2, h3]

theorem parseString_simple (e d : Char) (rest : List Char) (h1 : e ≠ 'u')
    (h2 : simpleEscape e = some d) :
    parseString ('\\' :: e :: rest) = consChar d (parseString rest) := by
  rw [parseString.eq_def]
  simp [h1, h2]

theorem parseString_u (h1 h2 h3 h4 : Char) (u : Nat) (rest : List Char)
    (e : hex4 h1 h2 h3 h4 = some u) (hs : ¬ (0xD800 ≤ u ∧ u < 0xE000)) :
    parseString ('\\' :: 'u' :: h1 :: h2 :: h3 :: h4 :: rest) =
      consChar (Char.ofNat u) (parseString rest) := by
  rw [parseString.eq_def]
  simp [e, escapedRune, hs]


theorem hex4_low (n : Nat) (h : n < 256) :
    hex4 '0' '0' (hexDigit (n / 16)) (hexDigit (n % 16)) = some n := by
  have e1 := hexVal_hexDigit ⟨n / 16, by omega⟩
  have e2 := hexVal_hexDigit ⟨n % 16, by omega⟩
  have e0 : hexVal '0' = some 0 := by decide
  simp only [hex4, e0, e1, e2]
  congr 1
  omega

/-- Reading back what the encoder wrote for one character gives the character. -/
theorem parseString_quoteChar (c : Char) (tail : List Char) :
    parseString (quoteChar c ++ tail) = consChar c (parseString tail) := by
  unfold quoteChar
  split
  · rename_i h
    rcases h with h | h <;> subst h
    · exact parseString_simple '\\' '\\' tail (by decide) (by decide)
    · exact parseString_simple '"' '"' tail (by decide) (by decide)
  · split
    · rename_i h; subst h
      exact parseString_simple 'n' '\n' tail (by decide) (by decide)
    · split
      · rename_i h; subst h
        exact parseString_simple 'r' '\r' tail (by decide) (by decide)
      · split
        · rename_i h; subst h
          exact parseString_simple 't' '\t' tail (by decide) (by decide)
        · split
          · rename_i h
            have hlt : c.toNat < 256 := by
              rcases h with h | h | h | h
              · omega
              · subst h; decide
              · subst h; decide
              · subst h; decide
            have := parseString_u '0' '0' (hexDigit (c.toNat / 16)) (hexDigit (c.toNat % 16))
              c.toNat tail (hex4_low c.toNat hlt) (by omega)
            rw [Char.ofNat_toNat] at this
            exact this
          · split
            · rename_i h
              have hc : c = Char.ofNat 0x2028 := by rw [← h, Char.ofNat_toNat]
              subst hc
              exact parseString_u '2' '0' '2' '8' 0x2028 tail (by decide) (by decide)
            · split
              · rename_i h
                have hc : c = Char.ofNat 0x2029 := by rw [← h, Char.ofNat_toNat]
                subst hc
                exact parseString_u '2' '0' '2' '9' 0x2029 tail (by decide) (by decide)
              · rename_i h1 h2 h3 h4 h5 h6 h7
                exact parseString_plain c tail (fun h => h1 (Or.inr h)) (fun h => h1 (Or.inl h))
                  (fun h => h5 (Or.inl h))

/-- Reading back the inside of a literal the encoder wrote, up to the closing
quote, gives the text. -/
theorem parseString_quoteBody (s rest : List Char) :
    parseString (quoteBody s ++ '"' :: rest) = .ok (s, rest) := by
  induction s with
  | nil => exact parseString_quote rest
  | cons c s ih =>
    rw [quoteBody, List.append_assoc, parseString_quoteChar, ih]
    rfl


theorem parseValue_string (depth : Nat) (rest : List Char) :
    parseValue depth ('"' :: rest) =
      match parseString rest with
      | .error e => .error e
      | .ok (s, rest1) => .ok (.str s, rest1) := by
  rw [parseValue.eq_def]
  simp [skipSpace, isSpace]

theorem parseValue_object (d : Nat) (rest : List Char) :
    parseValue (d + 1) ('{' :: '"' :: rest) =
      match parseMember (parseValue d) ('"' :: rest) with
      | .error err => .error err
      | .ok (m, rest2) =>
        match parseMembers (parseValue d) rest2.length rest2 with
        | .error err => .error err
        | .ok (ms, rest3) => .ok (.obj (m :: ms), rest3) := by
  rw [parseValue.eq_def]
  simp [skipSpace, isSpace]

/-- The body the encoder writes, with anything after it, parses as an object
whose one member is `url` with the URL as its value; the line feed and what
comes after it are left. -/
theorem parseValue_encodeRes_append (url : String) (tail : List Char) :
    parseValue maxNestingDepth ((encodeRes url).data ++ tail) =
      .ok (.obj [("url".data, .str url.data)], '\n' :: tail) := by
  have hbody : (encodeRes url).data ++ tail =
      '{' :: '"' :: (quoteBody "url".data ++ '"' ::
        (':' :: '"' :: (quoteBody url.data ++ '"' :: ('}' :: '\n' :: tail)))) := by
    simp [encodeRes, quote]
  rw [hbody, show maxNestingDepth = 9999 + 1 from rfl, parseValue_object]
  simp only [parseMember, if_true, parseString_quoteBody, skipSpace, isSpace]
  simp [parseValue_string, parseString_quoteBody, parseMembers, skipSpace, isSpace]

/-- The body the encoder writes parses as an object whose one member is
`url` with the URL as its value. -/
theorem parseValue_encodeRes (url : String) :
    parseValue maxNestingDepth (encodeRes url).data =
      .ok (.obj [("url".data, .str url.data)], ['\n']) := by
  have := parseValue_encodeRes_append url []
  rwa [List.append_nil] at this

/-! ## The bounds of the parser's loops are never reached -/

theorem skipSpace_length (l : List Char) : (skipSpace l).length ≤ l.length := by
  induction l with
  | nil => simp [skipSpace]
  | cons c cs ih =>
    simp only [skipSpace]
    split
    · simp only [List.length_cons]; omega
    · exact le_refl _

theorem consChar_ok (c : Char) (r : Except JsonError (List Char × List Char))
    (s rest : List Char) (h : consChar c r = .ok (s, rest)) :
    ∃ s', r = .ok (s', rest) := by
  cases r with
  | error e => simp [consChar] at h
  | ok p =>
    obtain ⟨s', rest'⟩ := p
    simp only [consChar, Except.ok.injEq, Prod.mk.injEq] at h
    exact ⟨s', by rw [h.2]⟩

theorem replaceHead_ok (c : Char) (r : Except JsonError (List Char × List Char))
    (s rest : List Char) (h : replaceHead c r = .ok (s, rest)) :
    ∃ s', r = .ok (s', rest) := by
  cases r with
  | error e => simp [replaceHead] at h
  | ok p =>
    obtain ⟨s', rest'⟩ := p
    cases s' with
    | nil =>
      simp only [replaceHead, Except.ok.injEq, Prod.mk.injEq] at h
      exact ⟨[], by rw [h.2]⟩
    | cons a s'' =>
      simp only [replaceHead, Except.ok.injEq, Prod.mk.injEq] at h
      exact ⟨a :: s'', by rw [h.2]⟩

theorem parseString_length : ∀ (n : Nat) (input s rest : List Char), input.length ≤ n →
    parseString input = .ok (s, rest) → rest.length < input.length := by
  intro n
  induction n with
  | zero =>
    intro input s rest hn h
    have : input = [] := List.length_eq_zero.mp (Nat.le_zero.mp hn)
    subst this
    simp [parseString] at h
  | succ n ih =>
    intro input s rest hn h
    rw [parseString.eq_def] at h
    split at h
    · simp at h
    · rename_i c tl
      simp only [List.length_cons] at hn ⊢
      split at h
      · simp only [Except.ok.injEq, Prod.mk.injEq] at h
        rw [← h.2]; omega
      · split at h
        · split at h
          · simp at h
          · rename_i e tl1
            simp only [List.length_cons] at hn ⊢
            split at h
            · split at h
              · rename_i h1 h2 h3 h4 tl5
                simp only [List.length_cons] at hn ⊢
                split at h
                · simp at h
                · split at h
                  · obtain ⟨s', hs'⟩ := replaceHead_ok _ _ _ _ h
                    have := ih tl5 s' rest (by omega) hs'
                    omega
                  · obtain ⟨s', hs'⟩ := consChar_ok _ _ _ _ h
                    have := ih tl5 s' rest (by omega) hs'
                    omega
              · simp at h
            · split at h
              · simp at h
              · obtain ⟨s', hs'⟩ := consChar_ok _ _ _ _ h
                have := ih tl1 s' rest (by omega) hs'
                omega
        · split at h
          · simp at h
          · obtain ⟨s', hs'⟩ := consChar_ok _ _ _ _ h
            have := ih tl s' rest (by omega) hs'
            omega


theorem expectLit_length : ∀ (lit input rest : List Char),
    expectLit lit input = .ok rest → rest.length ≤ input.length
  | [], input, rest, h => by
    simp only [expectLit, Except.ok.injEq] at h
    rw [h]
  | _ :: _, [], _, h => by simp [expectLit] at h
  | e :: es, c :: cs, rest, h => by
    simp only [expectLit] at h
    split at h
    · have := expectLit_length es cs rest h
      simp only [List.length_cons]; omega
    · simp at h

theorem dropWhile_length (p : Char → Bool) (l : List Char) :
    (l.dropWhile p).length ≤ l.length :=
  (List.dropWhile_sublist p).length_le

theorem digits1_length (input rest : List Char) (h : digits1 input = .ok rest) :
    rest.length ≤ input.length := by
  cases input with
  | nil => simp [digits1] at h
  | cons c cs =>
    simp only [digits1] at h
    split at h
    · simp only [Except.ok.injEq] at h
      have := dropWhile_length isDigit cs
      rw [← h]; simp only [List.length_cons]; omega
    · simp at h

theorem parseExp_length (input rest : List Char) (h : parseExp input = .ok rest) :
    rest.length ≤ input.length := by
  cases input with
  | nil => simp only [parseExp, Except.ok.injEq] at h; rw [← h]
  | cons c cs =>
    simp only [parseExp] at h
    split at h
    · split at h
      · simp at h
      · rename_i d ds
        split at h
        · have := digits1_length _ _ h
          simp only [List.length_cons]; omega
        · have := digits1_length _ _ h
          simp only [List.length_cons] at this ⊢; omega
    · simp only [Except.ok.injEq] at h; rw [← h]

theorem parseFrac_length (input rest : List Char) (h : parseFrac input = .ok rest) :
    rest.length ≤ input.length := by
  cases input with
  | nil => simp only [parseFrac, Except.ok.injEq] at h; rw [← h]
  | cons c cs =>
    simp only [parseFrac] at h
    split at h
    · split at h
      · rename_i r hr
        have h1 := digits1_length _ _ hr
        have h2 := parseExp_length _ _ h
        simp only [List.length_cons]; omega
      · simp at h
    · exact parseExp_length _ _ h

theorem parseInt_length (input rest : List Char) (h : parseInt input = .ok rest) :
    rest.length < input.length := by
  cases input with
  | nil => simp [parseInt] at h
  | cons c cs =>
    simp only [parseInt] at h
    split at h
    · have := parseFrac_length _ _ h
      simp only [List.length_cons]; omega
    · split at h
      · have h1 := parseFrac_length _ _ h
        have h2 := dropWhile_length isDigit cs
        simp only [List.length_cons]; omega
      · simp at h

theorem parseNumber_length (input rest : List Char) (h : parseNumber input = .ok rest) :
    rest.length < input.length := by
  cases input with
  | nil => simp [parseNumber] at h
  | cons c cs =>
    simp only [parseNumber] at h
    split at h
    · have := parseInt_length _ _ h
      simp only [List.length_cons]; omega
    · exact parseInt_length _ _ h

theorem parseElems_length (pv : List Char → Except JsonError (JValue × List Char))
    (hpv : ∀ i v rest, pv i = .ok (v, rest) → rest.length ≤ i.length) :
    ∀ (n : Nat) (input : List Char) (vs : List JValue) (rest : List Char),
      parseElems pv n input = .ok (vs, rest) → rest.length < input.length := by
  intro n
  induction n with
  | zero => intro input vs rest h; simp [parseElems] at h
  | succ n ih =>
    intro input vs rest h
    have hsp := skipSpace_length input
    simp only [parseElems] at h
    split at h
    · simp at h
    · rename_i c tl hsk
      rw [hsk] at hsp
      simp only [List.length_cons] at hsp
      split at h
      · simp only [Except.ok.injEq, Prod.mk.injEq] at h
        rw [← h.2]; omega
      · split at h
        · split at h
          · simp at h
          · rename_i v rest1 hv
            have h1 := hpv _ _ _ hv
            split at h
            · simp at h
            · rename_i vs' rest2 hrec
              simp only [Except.ok.injEq, Prod.mk.injEq] at h
              have := ih rest1 vs' rest2 hrec
              rw [← h.2]; omega
        · simp at h

theorem parseElems_fuel (pv : List Char → Except JsonError (JValue × List Char))
    (hpv : ∀ i v rest, pv i = .ok (v, rest) → rest.length ≤ i.length) :
    ∀ (n : Nat) (input : List Char), input.length ≤ n →
      parseElems pv (n + 1) input = parseElems pv n input := by
  intro n
  induction n with
  | zero =>
    intro input hn
    have : input = [] := List.length_eq_zero.mp (Nat.le_zero.mp hn)
    subst this
    simp [parseElems, skipSpace]
  | succ n ih =>
    intro input hn
    have hsp := skipSpace_length input
    rw [parseElems, parseElems]
    split
    · rfl
    · rename_i c tl hsk
      rw [hsk] at hsp
      simp only [List.length_cons] at hsp
      split
      · rfl
      · split
        · cases hv : pv tl with
          | error e => rfl
          | ok p =>
            obtain ⟨v, rest1⟩ := p
            have h1 := hpv _ _ _ hv
            simp only
            rw [ih rest1 (by omega)]
        · rfl


theorem parseMember_length (pv : List Char → Except JsonError (JValue × List Char))
    (hpv : ∀ i v rest, pv i = .ok (v, rest) → rest.length ≤ i.length)
    (input : List Char) (m : List Char × JValue) (rest : List Char)
    (h : parseMember pv input = .ok (m, rest)) : rest.length < input.length := by
  cases input with
  | nil => simp [parseMember] at h
  | cons c tl =>
    simp only [parseMember] at h
    split at h
    · split at h
      · simp at h
      · rename_i key rest1 hk
        have h1 := parseString_length _ _ _ _ (le_refl _) hk
        have h2 := skipSpace_length rest1
        split at h
        · simp at h
        · rename_i d rest2 hsk
          rw [hsk] at h2
          simp only [List.length_cons] at h2
          split at h
          · split at h
            · simp at h
            · rename_i v rest3 hv
              have h3 := hpv _ _ _ hv
              simp only [Except.ok.injEq, Prod.mk.injEq] at h
              rw [← h.2]; simp only [List.length_cons]; omega
          · simp at h
    · simp at h

theorem parseMembers_length (pv : List Char → Except JsonError (JValue × List Char))
    (hpv : ∀ i v rest, pv i = .ok (v, rest) → rest.length ≤ i.length) :
    ∀ (n : Nat) (input : List Char) (ms : List (List Char × JValue)) (rest : List Char),
      parseMembers pv n input = .ok (ms, rest) → rest.length < input.length := by
  intro n
  induction n with
  | zero => intro input ms rest h; simp [parseMembers] at h
  | succ n ih =>
    intro input ms rest h
    have hsp := skipSpace_length input
    simp only [parseMembers] at h
    split at h
    · simp at h
    · rename_i c tl hsk
      rw [hsk] at hsp
      simp only [List.length_cons] at hsp
      split at h
      · simp only [Except.ok.injEq, Prod.mk.injEq] at h
        rw [← h.2]; omega
      · split at h
        · split at h
          · simp at h
          · rename_i m rest1 hm
            have h1 := parseMember_length pv hpv _ _ _ hm
            have h2 := skipSpace_length tl
            split at h
            · simp at h
            · rename_i ms' rest2 hrec
              simp only [Except.ok.injEq, Prod.mk.injEq] at h
              have := ih rest1 ms' rest2 hrec
              rw [← h.2]; omega
        · simp at h

theorem parseMembers_fuel (pv : List Char → Except JsonError (JValue × List Char))
    (hpv : ∀ i v rest, pv i = .ok (v, rest) → rest.length ≤ i.length) :
    ∀ (n : Nat) (input : List Char), input.length ≤ n →
      parseMembers pv (n + 1) input = parseMembers pv n input := by
  intro n
  induction n with
  | zero =>
    intro input hn
    have : input = [] := List.length_eq_zero.mp (Nat.le_zero.mp hn)
    subst this
    simp [parseMembers, skipSpace]
  | succ n ih =>
    intro input hn
    have hsp := skipSpace_length input
    rw [parseMembers, parseMembers]
    split
    · rfl
    · rename_i c tl hsk
      rw [hsk] at hsp
      simp only [List.length_cons] at hsp
      split
      · rfl
      · split
        · cases hm : parseMember pv (skipSpace tl) with
          | error e => rfl
          | ok p =>
            obtain ⟨m, rest1⟩ := p
            have h1 := parseMember_length pv hpv _ _ _ hm
            have h2 := skipSpace_length tl
            simp only
            rw [ih rest1 (by omega)]
        · rfl

/-- A value that parses leaves less input than it was given. -/
theorem parseValue_length : ∀ (depth : Nat) (input : List Char) (v : JValue)
    (rest : List Char), parseValue depth input = .ok (v, rest) →
    rest.length < input.length := by
  intro depth
  induction depth with
  | zero =>
    intro input v rest h
    have hsp := skipSpace_length input
    rw [parseValue.eq_def] at h
    simp only at h
    split at h
    · simp at h
    · rename_i c tl hsk
      rw [hsk] at hsp
      simp only [List.length_cons] at hsp
      split at h
      · split at h
        · simp at h
        · rename_i s rest1 hs
          have := parseString_length _ _ _ _ (le_refl _) hs
          simp only [Except.ok.injEq, Prod.mk.injEq] at h
          rw [← h.2]; omega
      · split at h
        · simp at h
        · split at h
          · simp at h
          · split at h
            · split at h
              · simp at h
              · rename_i r hr
                have := expectLit_length _ _ _ hr
                simp only [Except.ok.injEq, Prod.mk.injEq] at h
                rw [← h.2]; omega
            · split at h
              · split at h
                · simp at h
                · rename_i r hr
                  have := expectLit_length _ _ _ hr
                  simp only [Except.ok.injEq, Prod.mk.injEq] at h
                  rw [← h.2]; omega
              · split at h
                · split at h
                  · simp at h
                  · rename_i r hr
                    have := expectLit_length _ _ _ hr
                    simp only [Except.ok.injEq, Prod.mk.injEq] at h
                    rw [← h.2]; omega
                · split at h
                  · split at h
                    · simp at h
                    · rename_i r hr
                      have := parseNumber_length _ _ hr
                      simp only [List.length_cons] at this
                      simp only [Except.ok.injEq, Prod.mk.injEq] at h
                      rw [← h.2]; omega
                  · simp at h
  | succ d ih =>
    intro input v rest h
    have hpv : ∀ i v rest, parseValue d i = .ok (v, rest) → rest.length ≤ i.length :=
      fun i v rest hi => Nat.le_of_lt (ih i v rest hi)
    have hsp := skipSpace_length input
    rw [parseValue.eq_def] at h
    simp only at h
    split at h
    · simp at h
    · rename_i c tl hsk
      rw [hsk] at hsp
      simp only [List.length_cons] at hsp
      split at h
      · split at h
        · simp at h
        · rename_i s rest1 hs
          have := parseString_length _ _ _ _ (le_refl _) hs
          simp only [Except.ok.injEq, Prod.mk.injEq] at h
          rw [← h.2]; omega
      · split at h
        · have hsp2 := skipSpace_length tl
          split at h
          · simp at h
          · rename_i e rest1 hsk2
            rw [hsk2] at hsp2
            simp only [List.length_cons] at hsp2
            split at h
            · simp only [Except.ok.injEq, Prod.mk.injEq] at h
              rw [← h.2]; omega
            · split at h
              · simp at h
              · rename_i v1 rest2 hv
                have h1 := ih _ _ _ hv
                simp only [List.length_cons] at h1
                split at h
                · simp at h
                · rename_i vs rest3 hel
                  have h2 := parseElems_length _ hpv _ _ _ _ hel
                  simp only [Except.ok.injEq, Prod.mk.injEq] at h
                  rw [← h.2]; omega
        · split at h
          · have hsp2 := skipSpace_length tl
            split at h
            · simp at h
            · rename_i e rest1 hsk2
              rw [hsk2] at hsp2
              simp only [List.length_cons] at hsp2
              split at h
              · simp only [Except.ok.injEq, Prod.mk.injEq] at h
                rw [← h.2]; omega
              · split at h
                · simp at h
                · rename_i m rest2 hm
                  have h1 := parseMember_length _ hpv _ _ _ hm
                  simp only [List.length_cons] at h1
                  split at h
                  · simp at h
                  · rename_i ms rest3 hel
                    have h2 := parseMembers_length _ hpv _ _ _ _ hel
                    simp only [Except.ok.injEq, Prod.mk.injEq] at h
                    rw [← h.2]; omega
          · split at h
            · split at h
              · simp at h
              · rename_i r hr
                have := expectLit_length _ _ _ hr
                simp only [Except.ok.injEq, Prod.mk.injEq] at h
                rw [← h.2]; omega
            · split at h
              · split at h
                · simp at h
                · rename_i r hr
                  have := expectLit_length _ _ _ hr
                  simp only [Except.ok.injEq, Prod.mk.injEq] at h
                  rw [← h.2]; omega
              · split at h
                · split at h
                  · simp at h
                  · rename_i r hr
                    have := expectLit_length _ _ _ hr
                    simp only [Except.ok.injEq, Prod.mk.injEq] at h
                    rw [← h.2]; omega
                · split at h
                  · split at h
                    · simp at h
                    · rename_i r hr
                      have := parseNumber_length _ _ hr
                      simp only [List.length_cons] at this
                      simp only [Except.ok.injEq, Prod.mk.injEq] at h
                      rw [← h.2]; omega
                  · simp at h

/-- The bound `rest.length` that `parseValue` gives the loop over the elements
of an array is never what ends the loop: a larger bound gives the same
result. -/
theorem parseElems_bound_irrelevant (depth : Nat) (input : List Char) :
    ∀ k, parseElems (parseValue depth) (input.length + k) input =
      parseElems (parseValue depth) input.length input := by
  intro k
  induction k with
  | zero => rfl
  | succ k ih =>
    rw [← ih, ← Nat.add_assoc]
    exact parseElems_fuel _ (fun i v rest hi => Nat.le_of_lt (parseValue_length depth i v rest hi))
      _ input (by omega)

/-- The bound `rest.length` that `parseValue` gives the loop over the members
of an object is never what ends the loop: a larger bound gives the same
result. -/
theorem parseMembers_bound_irrelevant (depth : Nat) (input : List Char) :
    ∀ k, parseMembers (parseValue depth) (input.length + k) input =
      parseMembers (parseValue depth) input.length input := by
  intro k
  induction k with
  | zero => rfl
  | succ k ih =>
    rw [← ih, ← Nat.add_assoc]
    exact parseMembers_fuel _
      (fun i v rest hi => Nat.le_of_lt (parseValue_length depth i v rest hi)) _ input (by omega)

/-- Every run of the handler that returns is one of five: the `OPTIONS`
answer, the answer to a body the decoder rejects, the answer to a signing
error, the answer with the URL, and the answer to a write of the URL that
returned an error. -/
theorem uploadHandler_cases {σ : Type} (env : Env σ) (rd : σ) (r : Request) (out : Outcome σ)
    (h : uploadHandler env rd r = some out) :
    (r.Method = "OPTIONS" ∧ out.w = ⟨[("Access-Control-Allow-Headers", "Content-Type"),
        ("Access-Control-Allow-Origin", "*")], some 200, ""⟩ ∧ out.calls = []) ∨
    (r.Method ≠ "OPTIONS" ∧ ∃ err, jsonDecode r.Body { ContentType := "" } = .error err ∧
      out.w.Code = some 400 ∧
      out.calls = [Call.Decode r.Body, Call.Error (env.jsonErrorText err) StatusBadRequest]) ∨
    (r.Method ≠ "OPTIONS" ∧ ∃ body key rd',
      jsonDecode r.Body { ContentType := "" } = .ok body ∧
      uniqueId env.Intn rd = some (key, rd') ∧
      ((∃ err, (SignedURL env env.projectId ("images/" ++ key ++ "." ++ inferExt body)
          (buildOptions env body)).1 = .error err ∧ out.w.Code = some 500 ∧
          out.calls = [Call.Decode r.Body, Call.uniqueId key,
            Call.SignedURL env.projectId ("images/" ++ key ++ "." ++ inferExt body)
              (buildOptions env body)] ++
            (SignedURL env env.projectId ("images/" ++ key ++ "." ++ inferExt body)
              (buildOptions env body)).2.map Call.signer ++
            [Call.Error (err.Error env) StatusInternalServerError]) ∨
       (∃ url, (SignedURL env env.projectId ("images/" ++ key ++ "." ++ inferExt body)
          (buildOptions env body)).1 = .ok url ∧ out.w.Code = some 200 ∧
          ((env.writeError (encodeRes url) = none ∧ out.w.Body = encodeRes url ∧
            out.calls = [Call.Decode r.Body, Call.uniqueId key,
              Call.SignedURL env.projectId ("images/" ++ key ++ "." ++ inferExt body)
                (buildOptions env body)] ++
              (SignedURL env env.projectId ("images/" ++ key ++ "." ++ inferExt body)
                (buildOptions env body)).2.map Call.signer ++ [Call.Encode url]) ∨
           (∃ err, env.writeError (encodeRes url) = some err ∧
            out.w.Body = encodeRes url ++ (err.Error env ++ "\n") ∧
            out.calls = [Call.Decode r.Body, Call.uniqueId key,
              Call.SignedURL env.projectId ("images/" ++ key ++ "." ++ inferExt body)
                (buildOptions env body)] ++
              (SignedURL env env.projectId ("images/" ++ key ++ "." ++ inferExt body)
                (buildOptions env body)).2.map Call.signer ++
              [Call.Encode url, Call.Error (err.Error env) StatusInternalServerError]))))) := by
  by_cases hm : r.Method = "OPTIONS"
  · left
    simp only [uploadHandler, hm, if_true, Option.some.injEq] at h
    subst h
    refine ⟨hm, ?_, rfl⟩
    simp [ResponseWriter.WriteHeader, ResponseWriter.Set, StatusOK]
  · right
    cases hd : jsonDecode r.Body { ContentType := "" } with
    | error err =>
      left
      have ho := uploadHandler_of_decode_error env rd r err hm hd
      rw [h, Option.some.injEq, httpError_fresh] at ho
      subst ho
      exact ⟨hm, err, rfl, rfl, rfl⟩
    | ok body =>
      right
      cases hk : uniqueId env.Intn rd with
      | none => simp [uploadHandler, hm, hd, hk] at h
      | some p =>
        obtain ⟨key, rd'⟩ := p
        refine ⟨hm, body, key, rd', rfl, rfl, ?_⟩
        cases hs : (SignedURL env env.projectId ("images/" ++ key ++ "." ++ inferExt body)
            (buildOptions env body)).1 with
        | error err =>
          left
          have ho := uploadHandler_of_signing_error env rd rd' r body key err hm hd hk hs
          rw [h, Option.some.injEq, httpError_fresh] at ho
          subst ho
          exact ⟨err, rfl, rfl, rfl⟩
        | ok url =>
          right
          cases hw : env.writeError (encodeRes url) with
          | none =>
            have ho := uploadHandler_of_written env rd rd' r body key url hm hd hk hs hw
            rw [h, Option.some.injEq, Encode_fresh] at ho
            subst ho
            exact ⟨url, rfl, rfl, Or.inl ⟨hw, rfl, rfl⟩⟩
          | some err =>
            have ho := uploadHandler_of_write_error env rd rd' r body key url err hm hd hk hs hw
            rw [h, Option.some.injEq, httpError_after_Encode] at ho
            subst ho
            exact ⟨url, rfl, rfl, Or.inr ⟨err, hw, rfl, rfl⟩⟩

/-- C4, as the code has it: a request that is not `OPTIONS` (a `POST` in
particular) whose body the decoder rejects, as it rejects the body
`not json`, is answered with status 400 and the text of the decoder's error;
besides the decoder only `http.Error` is called: no key is drawn, the
generator keeps its state, `storage.SignedURL` and `signBytes` are not
called.  The answer is 400 exactly when the decoder rejects the body; the
body `nullx`, malformed after a well-formed first value, is decoded. -/
theorem uploadHandler_malformed_body {σ : Type} (env : Env σ) (rd : σ) (r : Request)
    (err : JsonError)
    (hm : r.Method ≠ "OPTIONS")
    (hd : jsonDecode r.Body { ContentType := "" } = .error err) :
    jsonDecode "not json" { ContentType := "" } = .error .invalidCharacter ∧
    (∃ out, uploadHandler env rd r = some out ∧
      out.w.Code = some 400 ∧
      out.w.Body = env.jsonErrorText err ++ "\n" ∧
      out.rd = rd ∧
      out.calls = [Call.Decode r.Body, Call.Error (env.jsonErrorText err) 400] ∧
      drawnKeys out.calls = [] ∧
      signedObjects out.calls = [] ∧
      signerCalls out.calls = [] ∧
      encodedURLs out.calls = []) ∧
    (∀ (r₂ : Request) (rd₂ : σ) (out₂ : Outcome σ), r₂.Method ≠ "OPTIONS" →
      uploadHandler env rd₂ r₂ = some out₂ →
      (out₂.w.Code = some 400 ↔ ∃ e, jsonDecode r₂.Body { ContentType := "" } = .error e)) ∧
    isJSONText "nullx" = false ∧
    jsonDecode "nullx" { ContentType := "" } = .ok ⟨""⟩ := by
  refine ⟨by decide, ?_, ?_, by decide, by decide⟩
  · have ho := uploadHandler_of_decode_error env rd r err hm hd
    rw [httpError_fresh] at ho
    exact ⟨_, ho, rfl, rfl, rfl, rfl, rfl, rfl, rfl, rfl⟩
  · intro r₂ rd₂ out₂ hm₂ h₂
    rcases uploadHandler_cases env rd₂ r₂ out₂ h₂ with ⟨ho, _⟩ | ⟨_, e, he, hc, _⟩ |
      ⟨_, body, key, rd', hb, _, hrest⟩
    · exact absurd ho hm₂
    · exact ⟨fun _ => ⟨e, he⟩, fun _ => hc⟩
    · constructor
      · intro hc
        rcases hrest with ⟨_, _, h500, _⟩ | ⟨_, _, h200, _⟩
        · rw [h500] at hc; exact absurd hc (by decide)
        · rw [h200] at hc; exact absurd hc (by decide)
      · rintro ⟨e, he⟩
        rw [hb] at he
        exact absurd he (by simp)

/-- C4 at the sample environment for a `POST` with the body `not json`. -/
theorem uploadHandler_malformed_body_witness :
    jsonDecode "not json" { ContentType := "" } = .error .invalidCharacter ∧
    (∃ out, uploadHandler sampleEnv 0 ⟨"POST", "not json"⟩ = some out ∧
      out.w.Code = some 400 ∧
      out.w.Body = sampleEnv.jsonErrorText .invalidCharacter ++ "\n" ∧
      out.rd = 0 ∧
      out.calls = [Call.Decode "not json",
        Call.Error (sampleEnv.jsonErrorText .invalidCharacter) 400] ∧
      drawnKeys out.calls = [] ∧
      signedObjects out.calls = [] ∧
      signerCalls out.calls = [] ∧
      encodedURLs out.calls = []) ∧
    (∀ (r₂ : Request) (rd₂ : Nat) (out₂ : Outcome Nat), r₂.Method ≠ "OPTIONS" →
      uploadHandler sampleEnv rd₂ r₂ = some out₂ →
      (out₂.w.Code = some 400 ↔ ∃ e, jsonDecode r₂.Body { ContentType := "" } = .error e)) ∧
    isJSONText "nullx" = false ∧
    jsonDecode "nullx" { ContentType := "" } = .ok ⟨""⟩ :=
  uploadHandler_malformed_body sampleEnv 0 ⟨"POST", "not json"⟩ .invalidCharacter
    (by decide) (by decide)

/-- C4 fails as stated: the bodies `nullx` and
`{"contentType":"image/png"}}]garbage` are malformed JSON, yet in the sample
environment a `POST` with either is not answered 400: the first value of the
body is decoded, a key is drawn, the signing authority is reached and the
answer is 200. -/
theorem malformed_body_reaches_signer :
    isJSONText "nullx" = false ∧
    (uploadHandler sampleEnv 0 ⟨"POST", "nullx"⟩).map
        (fun out => (out.w.Code, drawnKeys out.calls, signedObjects out.calls,
          decide (SignerCall.NewService ∈ signerCalls out.calls))) =
      some (some 200, ["ABCDEFGHIJKLMNOPQRST"],
        [("demo", "images/ABCDEFGHIJKLMNOPQRST.")], true) ∧
    isJSONText "\x7b\"contentType\":\"image/png\"\x7d\x7d]garbage" = false ∧
    (uploadHandler sampleEnv 0
        ⟨"POST", "\x7b\"contentType\":\"image/png\"\x7d\x7d]garbage"⟩).map
        (fun out => (out.w.Code, drawnKeys out.calls, signedObjects out.calls,
          decide (SignerCall.NewService ∈ signerCalls out.calls))) =
      some (some 200, ["ABCDEFGHIJKLMNOPQRST"],
        [("demo", "images/ABCDEFGHIJKLMNOPQRST.png")], true) := by
  refine ⟨by decide, by decide, by decide, by decide⟩

/-- Whatever the request, a URL is handed to the encoder only after signing
succeeded with that URL. -/
theorem uploadHandler_encoded_after_signing {σ : Type} (env : Env σ) (rd : σ) (r : Request)
    (out : Outcome σ) (u : String)
    (h : uploadHandler env rd r = some out) (hu : u ∈ encodedURLs out.calls) :
    ∃ body key, (SignedURL env env.projectId ("images/" ++ key ++ "." ++ inferExt body)
      (buildOptions env body)).1 = .ok u := by
  rcases uploadHandler_cases env rd r out h with ⟨_, _, hc⟩ | ⟨_, e, _, _, hc⟩ |
    ⟨_, body, key, rd', _, _, hrest⟩
  · rw [hc] at hu; simp [encodedURLs] at hu
  · rw [hc] at hu; simp [encodedURLs] at hu
  · rcases hrest with ⟨err, _, _, hc⟩ | ⟨url, hs, _, ⟨_, _, hc⟩ | ⟨err, _, _, hc⟩⟩
    · rw [hc, encodedURLs_append, encodedURLs_append, encodedURLs_signer] at hu
      simp [encodedURLs] at hu
    · rw [hc, encodedURLs_append, encodedURLs_append, encodedURLs_signer] at hu
      simp only [encodedURLs, List.append_nil, List.nil_append, List.mem_singleton] at hu
      subst hu
      exact ⟨body, key, hs⟩
    · rw [hc, encodedURLs_append, encodedURLs_append, encodedURLs_signer] at hu
      simp only [encodedURLs, List.append_nil, List.nil_append, List.mem_singleton] at hu
      subst hu
      exact ⟨body, key, hs⟩

/-- Whatever the request, a response with status 200 whose body reads as a
JSON object with the one member `url` comes only after signing succeeded with
that very URL. -/
theorem uploadHandler_url_in_response {σ : Type} (env : Env σ) (rd : σ) (r : Request)
    (out : Outcome σ) (u : String) (rest : List Char)
    (h : uploadHandler env rd r = some out) (hc : out.w.Code = some 200)
    (hp : parseValue maxNestingDepth out.w.Body.data =
      .ok (.obj [("url".data, .str u.data)], rest)) :
    ∃ body key, (SignedURL env env.projectId ("images/" ++ key ++ "." ++ inferExt body)
      (buildOptions env body)).1 = .ok u := by
  rcases uploadHandler_cases env rd r out h with ⟨_, hw, _⟩ | ⟨_, e, _, h400, _⟩ |
    ⟨_, body, key, rd', _, _, hrest⟩
  · rw [hw] at hp
    have hempty : parseValue maxNestingDepth "".data = .error .unexpectedEOF := by
      rw [parseValue.eq_def]
      rfl
    rw [hempty] at hp
    exact absurd hp (by simp)
  · rw [h400] at hc; exact absurd hc (by decide)
  · rcases hrest with ⟨err, _, h500, _⟩ | ⟨url, hs, _, ⟨_, hb, _⟩ | ⟨err, _, hb, _⟩⟩
    · rw [h500] at hc; exact absurd hc (by decide)
    · rw [hb, parseValue_encodeRes] at hp
      simp only [Except.ok.injEq, Prod.mk.injEq, JValue.obj.injEq, List.cons.injEq,
        JValue.str.injEq] at hp
      have : url = u := String.ext hp.1.1.2
      subst this
      exact ⟨body, key, hs⟩
    · rw [hb, String.data_append, parseValue_encodeRes_append] at hp
      simp only [Except.ok.injEq, Prod.mk.injEq, JValue.obj.injEq, List.cons.injEq,
        JValue.str.injEq] at hp
      have : url = u := String.ext hp.1.1.2
      subst this
      exact ⟨body, key, hs⟩

/-- C9, as the code has it: for a request that is not `OPTIONS` (a `POST` in
particular) whose body decodes, when signing succeeds with URL `u` and the
writer takes the encoded body, the response has status 200 and its body is
the encoder's output for the map with the single key `url`, which parses as a
JSON object whose only member is `url` with value exactly `u`, and
`http.Error` is not called.  For any request at all, a URL reaches the
encoder, and a 200 response reads as an object with a `url` member, only
after signing returned that URL; and when the writer returns an error for the
encoded body, the handler goes on to `http.Error` with that error and
status 500. -/
theorem uploadHandler_signed_url {σ : Type} (env : Env σ) (rd rd' : σ) (r : Request)
    (body : uploadRequest) (key u : String)
    (hm : r.Method ≠ "OPTIONS")
    (hd : jsonDecode r.Body { ContentType := "" } = .ok body)
    (hk : uniqueId env.Intn rd = some (key, rd'))
    (hs : (SignedURL env env.projectId ("images/" ++ key ++ "." ++ inferExt body)
      (buildOptions env body)).1 = .ok u)
    (hw : env.writeError (encodeRes u) = none) :
    (∃ out, uploadHandler env rd r = some out ∧
      out.w.Code = some 200 ∧
      out.w.Body = encodeRes u ∧
      parseValue maxNestingDepth out.w.Body.data =
        .ok (.obj [("url".data, .str u.data)], ['\n']) ∧
      encodedURLs out.calls = [u] ∧
      errorCalls out.calls = []) ∧
    (∀ (r₂ : Request) (rd₂ : σ) (out₂ : Outcome σ) (u₂ : String),
      uploadHandler env rd₂ r₂ = some out₂ → u₂ ∈ encodedURLs out₂.calls →
      ∃ body₂ key₂, (SignedURL env env.projectId
        ("images/" ++ key₂ ++ "." ++ inferExt body₂) (buildOptions env body₂)).1 = .ok u₂) ∧
    (∀ (r₂ : Request) (rd₂ : σ) (out₂ : Outcome σ) (u₂ : String) (rest : List Char),
      uploadHandler env rd₂ r₂ = some out₂ → out₂.w.Code = some 200 →
      parseValue maxNestingDepth out₂.w.Body.data =
        .ok (.obj [("url".data, .str u₂.data)], rest) →
      ∃ body₂ key₂, (SignedURL env env.projectId
        ("images/" ++ key₂ ++ "." ++ inferExt body₂) (buildOptions env body₂)).1 = .ok u₂) ∧
    (∀ (r₂ : Request) (rd₂ rd₂' : σ) (body₂ : uploadRequest) (key₂ u₂ : String)
      (e : GoError), r₂.Method ≠ "OPTIONS" →
      jsonDecode r₂.Body { ContentType := "" } = .ok body₂ →
      uniqueId env.Intn rd₂ = some (key₂, rd₂') →
      (SignedURL env env.projectId ("images/" ++ key₂ ++ "." ++ inferExt body₂)
        (buildOptions env body₂)).1 = .ok u₂ →
      env.writeError (encodeRes u₂) = some e →
      ∃ out₂, uploadHandler env rd₂ r₂ = some out₂ ∧
        encodedURLs out₂.calls = [u₂] ∧
        errorCalls out₂.calls = [(e.Error env, 500)] ∧
        out₂.w.Body ≠ encodeRes u₂) := by
  refine ⟨?_, ?_, ?_, ?_⟩
  · have ho := uploadHandler_of_written env rd rd' r body key u hm hd hk hs hw
    rw [Encode_fresh] at ho
    refine ⟨_, ho, rfl, rfl, parseValue_encodeRes u, ?_, ?_⟩
    · simp only [encodedURLs_append, encodedURLs_signer]
      rfl
    · simp only [errorCalls_append, errorCalls_signer]
      rfl
  · intro r₂ rd₂ out₂ u₂ h₂ hu
    exact uploadHandler_encoded_after_signing env rd₂ r₂ out₂ u₂ h₂ hu
  · intro r₂ rd₂ out₂ u₂ rest h₂ hc hp
    exact uploadHandler_url_in_response env rd₂ r₂ out₂ u₂ rest h₂ hc hp
  · intro r₂ rd₂ rd₂' body₂ key₂ u₂ e hm₂ hd₂ hk₂ hs₂ hw₂
    have ho := uploadHandler_of_write_error env rd₂ rd₂' r₂ body₂ key₂ u₂ e hm₂ hd₂ hk₂ hs₂ hw₂
    rw [httpError_after_Encode] at ho
    refine ⟨_, ho, ?_, ?_, ?_⟩
    · simp only [encodedURLs_append, encodedURLs_signer]
      rfl
    · simp only [errorCalls_append, errorCalls_signer]
      rfl
    · show encodeRes u₂ ++ (e.Error env ++ "\n") ≠ encodeRes u₂
      intro hEq
      have := congrArg String.length hEq
      simp [String.length_append] at this
      exact absurd this.2 (by decide)

/-- C9 at the sample environment, generator state 0, for a PNG upload: signing
returns the URL and the writer takes the encoded body. -/
theorem uploadHandler_signed_url_witness :
    (∃ out, uploadHandler sampleEnv 0 ⟨"POST", "\x7b\"contentType\":\"image/png\"\x7d"⟩ =
        some out ∧
      out.w.Code = some 200 ∧
      out.w.Body = encodeRes
        "https://storage.googleapis.com/demo/images/ABCDEFGHIJKLMNOPQRST.png?n=3&v=4" ∧
      parseValue maxNestingDepth out.w.Body.data =
        .ok (.obj [("url".data, .str
          "https://storage.googleapis.com/demo/images/ABCDEFGHIJKLMNOPQRST.png?n=3&v=4".data)],
          ['\n']) ∧
      encodedURLs out.calls =
        ["https://storage.googleapis.com/demo/images/ABCDEFGHIJKLMNOPQRST.png?n=3&v=4"] ∧
      errorCalls out.calls = []) ∧
    (∀ (r₂ : Request) (rd₂ : Nat) (out₂ : Outcome Nat) (u₂ : String),
      uploadHandler sampleEnv rd₂ r₂ = some out₂ → u₂ ∈ encodedURLs out₂.calls →
      ∃ body₂ key₂, (SignedURL sampleEnv sampleEnv.projectId
        ("images/" ++ key₂ ++ "." ++ inferExt body₂) (buildOptions sampleEnv body₂)).1 =
          .ok u₂) ∧
    (∀ (r₂ : Request) (rd₂ : Nat) (out₂ : Outcome Nat) (u₂ : String) (rest : List Char),
      uploadHandler sampleEnv rd₂ r₂ = some out₂ → out₂.w.Code = some 200 →
      parseValue maxNestingDepth out₂.w.Body.data =
        .ok (.obj [("url".data, .str u₂.data)], rest) →
      ∃ body₂ key₂, (SignedURL sampleEnv sampleEnv.projectId
        ("images/" ++ key₂ ++ "." ++ inferExt body₂) (buildOptions sampleEnv body₂)).1 =
          .ok u₂) ∧
    (∀ (r₂ : Request) (rd₂ rd₂' : Nat) (body₂ : uploadRequest) (key₂ u₂ : String)
      (e : GoError), r₂.Method ≠ "OPTIONS" →
      jsonDecode r₂.Body { ContentType := "" } = .ok body₂ →
      uniqueId sampleEnv.Intn rd₂ = some (key₂, rd₂') →
      (SignedURL sampleEnv sampleEnv.projectId ("images/" ++ key₂ ++ "." ++ inferExt body₂)
        (buildOptions sampleEnv body₂)).1 = .ok u₂ →
      sampleEnv.writeError (encodeRes u₂) = some e →
      ∃ out₂, uploadHandler sampleEnv rd₂ r₂ = some out₂ ∧
        encodedURLs out₂.calls = [u₂] ∧
        errorCalls out₂.calls = [(e.Error sampleEnv, 500)] ∧
        out₂.w.Body ≠ encodeRes u₂) :=
  uploadHandler_signed_url sampleEnv 0 20 ⟨"POST", "\x7b\"contentType\":\"image/png\"\x7d"⟩
    ⟨"image/png"⟩ "ABCDEFGHIJKLMNOPQRST"
    "https://storage.googleapis.com/demo/images/ABCDEFGHIJKLMNOPQRST.png?n=3&v=4"
    (by decide) (by decide) (by decide) (by decide) (by decide)

/-- C9 fails as stated: in the sample environment with a writer whose `Write`
returns an error, a `POST` whose body decodes and for which signing succeeds
is not answered with the JSON object alone: lines 129-133 call `http.Error`
with status 500 and the text of the write error follows the object in what
was written. -/
theorem encode_failure_after_signing :
    (SignedURL brokenPipeEnv brokenPipeEnv.projectId "images/ABCDEFGHIJKLMNOPQRST.png"
        (buildOptions brokenPipeEnv ⟨"image/png"⟩)).1 =
      .ok "https://storage.googleapis.com/demo/images/ABCDEFGHIJKLMNOPQRST.png?n=3&v=4" ∧
    (uploadHandler brokenPipeEnv 0 ⟨"POST", "\x7b\"contentType\":\"image/png\"\x7d"⟩).map
        (fun out => (out.w.Body, encodedURLs out.calls, errorCalls out.calls,
          decide (out.w.Body = encodeRes
            "https://storage.googleapis.com/demo/images/ABCDEFGHIJKLMNOPQRST.png?n=3&v=4"))) =
      some ("\x7b\"url\":\"https://storage.googleapis.com/demo/images/ABCDEFGHIJKLMNOPQRST.png?n=3\\u0026v=4\"\x7d\nwrite: broken pipe\n",
        ["https://storage.googleapis.com/demo/images/ABCDEFGHIJKLMNOPQRST.png?n=3&v=4"],
        [("write: broken pipe", 500)], false) := by
  refine ⟨by decide, by decide⟩

/-! ## Keys of successive calls -/

theorem take_succ_set {α : Type} (c : α) : ∀ (b : List α) (i : Nat), i < b.length →
    (b.set i c).take (i + 1) = b.take i ++ [c]
  | [], i, h => absurd h (Nat.not_lt_zero i)
  | _ :: _, 0, _ => by simp
  | a :: b, i + 1, h => by
    have := take_succ_set c b i (by simpa using h)
    simp [this]

/-- The symbol `alphanum[k]`, for `k` in range. -/
theorem alphanum_getD (k : Nat) (c : Char) (h : alphanum.data[k]? = some c) :
    c = alphanum.data.getD k 'A' := by
  simp [List.getD, h]

/-- What the loop of `uniqueId` leaves in the buffer: the cells before `i`
as they were, then the symbols at the indices drawn. -/
theorem uniqueIdLoop_draws {σ : Type} (Intn : Nat → σ → Nat × σ) :
    ∀ (n i : Nat) (s s' : σ) (b b' : List Char), b.length = i + n →
      uniqueIdLoop Intn n i s b = some (b', s') →
      b' = b.take i ++ (draws Intn n s).map (fun k => alphanum.data.getD k 'A') := by
  intro n
  induction n with
  | zero =>
    intro i s s' b b' hlen h
    simp only [uniqueIdLoop, Option.some.injEq, Prod.mk.injEq] at h
    simp [draws, ← h.1, hlen]
  | succ n ih =>
    intro i s s' b b' hlen h
    cases hc : alphanum.data[(Intn alphanum.length s).1]? with
    | none => simp [uniqueIdLoop, hc] at h
    | some c =>
      simp only [uniqueIdLoop, hc] at h
      have := ih (i + 1) _ s' (b.set i c) b' (by rw [List.length_set]; omega) h
      rw [this, take_succ_set c b i (by omega), draws, List.map_cons, ← alphanum_getD _ c hc]
      simp

theorem uniqueId_draws {σ : Type} (Intn : Nat → σ → Nat × σ) (s s' : σ) (key : String)
    (h : uniqueId Intn s = some (key, s')) :
    key.data = (draws Intn 20 s).map (fun k => alphanum.data.getD k 'A') := by
  cases hl : uniqueIdLoop Intn 20 0 s (List.replicate 20 (Char.ofNat 0)) with
  | none => simp only [uniqueId, hl] at h; exact absurd h (by simp)
  | some p =>
    obtain ⟨b', s''⟩ := p
    simp only [uniqueId, hl, Option.some.injEq, Prod.mk.injEq] at h
    have := uniqueIdLoop_draws Intn 20 0 s s'' _ b' (by simp) hl
    rw [← h.1]
    simpa using this

theorem alphanum_indexOf : ∀ k : Fin 62,
    alphanum.data.indexOf (alphanum.data.getD k.val 'A') = k.val := by decide

theorem draws_lt {σ : Type} (Intn : Nat → σ → Nat × σ) (hI : ∀ s, (Intn 62 s).1 < 62) :
    ∀ (n : Nat) (s : σ), ∀ x ∈ draws Intn n s, x < 62 := by
  intro n
  induction n with
  | zero => intro s x hx; simp [draws] at hx
  | succ n ih =>
    intro s x hx
    simp only [draws, List.mem_cons] at hx
    rcases hx with hx | hx
    · rw [hx]; exact hI s
    · exact ih _ x hx

theorem map_alphanum_injective : ∀ (d₁ d₂ : List Nat), (∀ x ∈ d₁, x < 62) → (∀ x ∈ d₂, x < 62) →
    d₁.map (fun k => alphanum.data.getD k 'A') = d₂.map (fun k => alphanum.data.getD k 'A') →
    d₁ = d₂
  | [], [], _, _, _ => rfl
  | [], _ :: _, _, _, h => by simp at h
  | _ :: _, [], _, _, h => by simp at h
  | a :: d₁, b :: d₂, h₁, h₂, h => by
    simp only [List.map_cons, List.cons.injEq] at h
    have ha := alphanum_indexOf ⟨a, h₁ a (by simp)⟩
    have hb := alphanum_indexOf ⟨b, h₂ b (by simp)⟩
    simp only at ha hb
    have hab : a = b := by rw [← ha, ← hb, h.1]
    rw [hab, map_alphanum_injective d₁ d₂ (fun x hx => h₁ x (by simp [hx]))
      (fun x hx => h₂ x (by simp [hx])) h.2]

/-- Two keys are equal exactly when they were made from the same draws. -/
theorem uniqueId_eq_iff {σ : Type} (Intn : Nat → σ → Nat × σ) (hI : ∀ s, (Intn 62 s).1 < 62)
    (s s' t t' : σ) (k₁ k₂ : String)
    (h₁ : uniqueId Intn s = some (k₁, s')) (h₂ : uniqueId Intn t = some (k₂, t')) :
    k₁ = k₂ ↔ draws Intn 20 s = draws Intn 20 t := by
  have e₁ := uniqueId_draws Intn s s' k₁ h₁
  have e₂ := uniqueId_draws Intn t t' k₂ h₂
  constructor
  · intro h
    subst h
    exact map_alphanum_injective _ _ (draws_lt Intn hI 20 s) (draws_lt Intn hI 20 t)
      (e₁.symm.trans e₂)
  · intro h
    apply String.ext
    rw [e₁, e₂, h]

/-- Object paths with the same extension are equal exactly when their keys are. -/
theorem objectPath_eq_iff (k₁ k₂ ext : String) :
    "images/" ++ k₁ ++ "." ++ ext = "images/" ++ k₂ ++ "." ++ ext ↔ k₁ = k₂ := by
  constructor
  · intro h
    have := congrArg String.data h
    simp only [String.data_append, List.append_assoc] at this
    rw [List.append_right_inj] at this
    exact String.ext ((List.append_left_inj _).mp this)
  · intro h; rw [h]

/-- C8, as the code has it: for two sequential requests that are not
`OPTIONS` with the same decodable body, the second key is drawn from the
generator state the first call left, and the two object paths differ exactly
when the 20 indices drawn by the second call differ from the 20 drawn by the
first. -/
theorem uploadHandler_sequential_paths {σ : Type} (env : Env σ) (rd : σ) (r : Request)
    (body : uploadRequest)
    (hm : r.Method ≠ "OPTIONS")
    (hd : jsonDecode r.Body { ContentType := "" } = .ok body)
    (hI : ∀ s, (env.Intn 62 s).1 < 62) :
    ∃ out₁ out₂ k₁ k₂,
      uploadHandler env rd r = some out₁ ∧
      uploadHandler env out₁.rd r = some out₂ ∧
      uniqueId env.Intn rd = some (k₁, out₁.rd) ∧
      uniqueId env.Intn out₁.rd = some (k₂, out₂.rd) ∧
      signedObjects out₁.calls = [(env.projectId, "images/" ++ k₁ ++ "." ++ inferExt body)] ∧
      signedObjects out₂.calls = [(env.projectId, "images/" ++ k₂ ++ "." ++ inferExt body)] ∧
      ("images/" ++ k₁ ++ "." ++ inferExt body ≠ "images/" ++ k₂ ++ "." ++ inferExt body ↔
        draws env.Intn 20 rd ≠ draws env.Intn 20 out₁.rd) := by
  obtain ⟨k₁, rd₁, hk₁⟩ := uniqueId_returns env.Intn hI rd
  obtain ⟨out₁, tail₁, ho₁, hrd₁, hc₁, ht₁, _⟩ :=
    uploadHandler_decoded env rd rd₁ r body k₁ hm hd hk₁
  obtain ⟨k₂, rd₂, hk₂⟩ := uniqueId_returns env.Intn hI rd₁
  obtain ⟨out₂, tail₂, ho₂, hrd₂, hc₂, ht₂, _⟩ :=
    uploadHandler_decoded env rd₁ rd₂ r body k₂ hm hd hk₂
  refine ⟨out₁, out₂, k₁, k₂, ho₁, ?_, ?_, ?_, ?_, ?_, ?_⟩
  · rw [hrd₁]; exact ho₂
  · rw [hrd₁]; exact hk₁
  · rw [hrd₁, hrd₂]; exact hk₂
  · rw [hc₁, signedObjects_append, signedObjects_append, signedObjects_signer, ht₁]
    rfl
  · rw [hc₂, signedObjects_append, signedObjects_append, signedObjects_signer, ht₂]
    rfl
  · rw [hrd₁, Ne, Ne, objectPath_eq_iff, uniqueId_eq_iff env.Intn hI rd rd₁ rd₁ rd₂ k₁ k₂ hk₁ hk₂]

/-- C8 at the sample environment, generator state 0, for a PNG upload. -/
theorem uploadHandler_sequential_paths_witness :
    ∃ out₁ out₂ k₁ k₂,
      uploadHandler sampleEnv 0 ⟨"POST", "\x7b\"contentType\":\"image/png\"\x7d"⟩ = some out₁ ∧
      uploadHandler sampleEnv out₁.rd ⟨"POST", "\x7b\"contentType\":\"image/png\"\x7d"⟩ =
        some out₂ ∧
      uniqueId sampleEnv.Intn 0 = some (k₁, out₁.rd) ∧
      uniqueId sampleEnv.Intn out₁.rd = some (k₂, out₂.rd) ∧
      signedObjects out₁.calls =
        [(sampleEnv.projectId, "images/" ++ k₁ ++ "." ++ inferExt ⟨"image/png"⟩)] ∧
      signedObjects out₂.calls =
        [(sampleEnv.projectId, "images/" ++ k₂ ++ "." ++ inferExt ⟨"image/png"⟩)] ∧
      ("images/" ++ k₁ ++ "." ++ inferExt ⟨"image/png"⟩ ≠
          "images/" ++ k₂ ++ "." ++ inferExt ⟨"image/png"⟩ ↔
        draws sampleEnv.Intn 20 0 ≠ draws sampleEnv.Intn 20 out₁.rd) :=
  uploadHandler_sequential_paths sampleEnv 0 ⟨"POST", "\x7b\"contentType\":\"image/png\"\x7d"⟩
    ⟨"image/png"⟩ (by decide) (by decide) (fun s => Nat.mod_lt s (by decide))

/-- C8 fails as stated: with a generator whose `Intn` always returns 0, two
sequential `POST`s with the same body are signed for the same object path;
the key `AAAAAAAAAAAAAAAAAAAA` is used twice. -/
theorem uploadHandler_key_reused :
    (uploadHandler stuckEnv 0 ⟨"POST", "\x7b\"contentType\":\"image/png\"\x7d"⟩).map
        (fun out => (out.rd, drawnKeys out.calls, signedObjects out.calls)) =
      some (20, ["AAAAAAAAAAAAAAAAAAAA"], [("demo", "images/AAAAAAAAAAAAAAAAAAAA.png")]) ∧
    (uploadHandler stuckEnv 20 ⟨"POST", "\x7b\"contentType\":\"image/png\"\x7d"⟩).map
        (fun out => (out.rd, drawnKeys out.calls, signedObjects out.calls)) =
      some (40, ["AAAAAAAAAAAAAAAAAAAA"], [("demo", "images/AAAAAAAAAAAAAAAAAAAA.png")]) ∧
    (∀ s, (stuckEnv.Intn 62 s).1 < 62) := by
  refine ⟨by decide, by decide, ?_⟩
  intro s
  show 0 < 62
  decide

/-! ## Bodies without a content type -/

/-- Members that give the field no value leave the struct as it is. -/
theorem unmarshalMembers_noContentType : ∀ (ms : List (List Char × JValue))
    (body : uploadRequest) (saved : Option JsonError), noContentType ms = true →
    unmarshalMembers ms body saved = (body, saved)
  | [], _, _, _ => rfl
  | (key, v) :: ms, body, saved, h => by
    cases v with
    | null =>
      simp only [noContentType] at h
      simp only [unmarshalMembers, unmarshalMembers_noContentType ms body saved h, ite_self]
    | bool b =>
      simp only [noContentType, Bool.and_eq_true, Bool.not_eq_true'] at h
      simp only [unmarshalMembers, h.1, Bool.false_eq_true, if_false,
        unmarshalMembers_noContentType ms body saved h.2]
    | number t =>
      simp only [noContentType, Bool.and_eq_true, Bool.not_eq_true'] at h
      simp only [unmarshalMembers, h.1, Bool.false_eq_true, if_false,
        unmarshalMembers_noContentType ms body saved h.2]
    | str s =>
      simp only [noContentType, Bool.and_eq_true, Bool.not_eq_true'] at h
      simp only [unmarshalMembers, h.1, Bool.false_eq_true, if_false,
        unmarshalMembers_noContentType ms body saved h.2]
    | arr xs =>
      simp only [noContentType, Bool.and_eq_true, Bool.not_eq_true'] at h
      simp only [unmarshalMembers, h.1, Bool.false_eq_true, if_false,
        unmarshalMembers_noContentType ms body saved h.2]
    | obj ms' =>
      simp only [noContentType, Bool.and_eq_true, Bool.not_eq_true'] at h
      simp only [unmarshalMembers, h.1, Bool.false_eq_true, if_false,
        unmarshalMembers_noContentType ms body saved h.2]

/-- A body in which the content type is missing decodes, and leaves the
content type empty. -/
theorem jsonDecode_of_contentTypeMissing (stream : String)
    (h : contentTypeMissing stream = true) :
    jsonDecode stream { ContentType := "" } = .ok ⟨""⟩ := by
  unfold contentTypeMissing at h
  unfold jsonDecode
  split at h
  · simp at h
  · rename_i c rest hsk
    split at h
    · rename_i rest' hp
      rw [hp]
      rfl
    · rename_i ms rest' hp
      rw [hp]
      simp only [unmarshal, unmarshalMembers_noContentType ms _ none h]
    · simp at h

/-- A request that is not `OPTIONS` is turned away before
`storage.SignedURL` exactly when the decoder rejects its body. -/
theorem uploadHandler_turned_away_iff {σ : Type} (env : Env σ) (rd : σ) (r : Request)
    (out : Outcome σ) (hm : r.Method ≠ "OPTIONS") (h : uploadHandler env rd r = some out) :
    signedObjects out.calls = [] ↔
      ∃ e, jsonDecode r.Body { ContentType := "" } = .error e := by
  rcases uploadHandler_cases env rd r out h with ⟨ho, _⟩ | ⟨_, e, he, _, hc⟩ |
    ⟨_, body, key, rd', hb, hk, _⟩
  · exact absurd ho hm
  · exact ⟨fun _ => ⟨e, he⟩, fun _ => by rw [hc]; rfl⟩
  · obtain ⟨out', tail, ho, _, hcalls, ht, _⟩ :=
      uploadHandler_decoded env rd rd' r body key hm hb hk
    rw [h, Option.some.injEq] at ho
    subst ho
    constructor
    · intro hnil
      rw [hcalls, signedObjects_append, signedObjects_append, signedObjects_signer, ht] at hnil
      simp [signedObjects] at hnil
    · rintro ⟨e, he⟩
      rw [hb] at he
      exact absurd he (by simp)

/-- C6, as the code has it: a body in which the content type is missing (the
value `null`, or an object such as `{}`, `{"other":1}` or
`{"contentType":null}` in which no member gives `contentType` a value)
decodes with an empty content type and is not turned away:
`storage.SignedURL` is called for the object `images/<key>.` with content
type `""`, the status is never 400, and when signing succeeds and the writer
takes the encoded body the answer is 200 with the URL.  Only a body the
decoder rejects is turned away before the signer. -/
theorem uploadHandler_missing_content_type {σ : Type} (env : Env σ) (rd rd' : σ)
    (r : Request) (key : String)
    (hm : r.Method ≠ "OPTIONS")
    (hb : contentTypeMissing r.Body = true)
    (hk : uniqueId env.Intn rd = some (key, rd')) :
    jsonDecode r.Body { ContentType := "" } = .ok ⟨""⟩ ∧
    (∃ out, uploadHandler env rd r = some out ∧
      signedObjects out.calls = [(env.projectId, "images/" ++ key ++ ".")] ∧
      (∃ opts, signedOptions out.calls = [opts] ∧ opts.ContentType = "") ∧
      out.w.Code ≠ some 400 ∧
      (∀ u, (SignedURL env env.projectId ("images/" ++ key ++ ".")
          (buildOptions env ⟨""⟩)).1 = .ok u → env.writeError (encodeRes u) = none →
        out.w.Code = some 200 ∧ out.w.Body = encodeRes u ∧ encodedURLs out.calls = [u])) ∧
    (∀ (r₂ : Request) (rd₂ : σ) (out₂ : Outcome σ), r₂.Method ≠ "OPTIONS" →
      uploadHandler env rd₂ r₂ = some out₂ →
      (signedObjects out₂.calls = [] ↔
        ∃ e, jsonDecode r₂.Body { ContentType := "" } = .error e)) ∧
    contentTypeMissing "\x7b\x7d" = true ∧
    contentTypeMissing "null" = true ∧
    contentTypeMissing "\x7b\"other\":1\x7d" = true ∧
    contentTypeMissing "\x7b\"contentType\":null\x7d" = true ∧
    contentTypeMissing " \x7b \x7d " = true := by
  have hd := jsonDecode_of_contentTypeMissing r.Body hb
  have hext : inferExt ⟨""⟩ = "" := by decide
  have hpath : "images/" ++ key ++ "." ++ inferExt ⟨""⟩ = "images/" ++ key ++ "." := by
    rw [hext, String.append_empty]
  obtain ⟨out, tail, ho, _, hcalls, ht1, ht2, _, _, hcode⟩ :=
    uploadHandler_decoded env rd rd' r ⟨""⟩ key hm hd hk
  rw [hpath] at hcalls
  refine ⟨hd, ⟨out, ho, ?_, ?_, ?_, ?_⟩, ?_, by decide, by decide, by decide, by decide,
    by decide⟩
  · rw [hcalls, signedObjects_append, signedObjects_append, signedObjects_signer, ht1]
    rfl
  · refine ⟨buildOptions env ⟨""⟩, ?_, rfl⟩
    rw [hcalls, signedOptions_append, signedOptions_append, signedOptions_signer, ht2]
    rfl
  · rcases hcode with hc | hc <;> rw [hc] <;> decide
  · intro u hu hw
    rw [← hpath] at hu
    have ho' := uploadHandler_of_written env rd rd' r ⟨""⟩ key u hm hd hk hu hw
    rw [ho, Option.some.injEq, Encode_fresh] at ho'
    subst ho'
    refine ⟨rfl, rfl, ?_⟩
    simp only [encodedURLs_append, encodedURLs_signer]
    rfl
  · intro r₂ rd₂ out₂ hm₂ h₂
    exact uploadHandler_turned_away_iff env rd₂ r₂ out₂ hm₂ h₂

/-- C6 at the sample environment, generator state 0, for the body
`{"other":1}`; signing succeeds there and the writer takes the body. -/
theorem uploadHandler_missing_content_type_witness :
    (jsonDecode "\x7b\"other\":1\x7d" { ContentType := "" } = .ok ⟨""⟩ ∧
    (∃ out, uploadHandler sampleEnv 0 ⟨"POST", "\x7b\"other\":1\x7d"⟩ = some out ∧
      signedObjects out.calls =
        [(sampleEnv.projectId, "images/" ++ "ABCDEFGHIJKLMNOPQRST" ++ ".")] ∧
      (∃ opts, signedOptions out.calls = [opts] ∧ opts.ContentType = "") ∧
      out.w.Code ≠ some 400 ∧
      (∀ u, (SignedURL sampleEnv sampleEnv.projectId
          ("images/" ++ "ABCDEFGHIJKLMNOPQRST" ++ ".") (buildOptions sampleEnv ⟨""⟩)).1 =
            .ok u → sampleEnv.writeError (encodeRes u) = none →
        out.w.Code = some 200 ∧ out.w.Body = encodeRes u ∧ encodedURLs out.calls = [u])) ∧
    (∀ (r₂ : Request) (rd₂ : Nat) (out₂ : Outcome Nat), r₂.Method ≠ "OPTIONS" →
      uploadHandler sampleEnv rd₂ r₂ = some out₂ →
      (signedObjects out₂.calls = [] ↔
        ∃ e, jsonDecode r₂.Body { ContentType := "" } = .error e)) ∧
    contentTypeMissing "\x7b\x7d" = true ∧
    contentTypeMissing "null" = true ∧
    contentTypeMissing "\x7b\"other\":1\x7d" = true ∧
    contentTypeMissing "\x7b\"contentType\":null\x7d" = true ∧
    contentTypeMissing " \x7b \x7d " = true) ∧
    (SignedURL sampleEnv sampleEnv.projectId ("images/" ++ "ABCDEFGHIJKLMNOPQRST" ++ ".")
        (buildOptions sampleEnv ⟨""⟩)).1 =
      .ok "https://storage.googleapis.com/demo/images/ABCDEFGHIJKLMNOPQRST.?n=3&v=4" ∧
    sampleEnv.writeError (encodeRes
      "https://storage.googleapis.com/demo/images/ABCDEFGHIJKLMNOPQRST.?n=3&v=4") = none :=
  ⟨uploadHandler_missing_content_type sampleEnv 0 20 ⟨"POST", "\x7b\"other\":1\x7d"⟩
    "ABCDEFGHIJKLMNOPQRST" (by decide) (by decide) (by decide), by decide, by decide⟩

/-- C6 fails as stated: in the sample environment a `POST` with the body `{}`
and one with the body `null` both reach the signing authority and are
answered 200 with a signed URL for the object `images/ABCDEFGHIJKLMNOPQRST.`. -/
theorem missing_content_type_reaches_signer :
    (uploadHandler sampleEnv 0 ⟨"POST", "\x7b\x7d"⟩).map
        (fun out => (out.w.Code, signedObjects out.calls,
          decide (SignerCall.NewService ∈ signerCalls out.calls), encodedURLs out.calls)) =
      some (some 200, [("demo", "images/ABCDEFGHIJKLMNOPQRST.")], true,
        ["https://storage.googleapis.com/demo/images/ABCDEFGHIJKLMNOPQRST.?n=3&v=4"]) ∧
    (uploadHandler sampleEnv 0 ⟨"POST", "null"⟩).map
        (fun out => (out.w.Code, signedObjects out.calls,
          decide (SignerCall.NewService ∈ signerCalls out.calls), encodedURLs out.calls)) =
      some (some 200, [("demo", "images/ABCDEFGHIJKLMNOPQRST.")], true,
        ["https://storage.googleapis.com/demo/images/ABCDEFGHIJKLMNOPQRST.?n=3&v=4"]) := by
  refine ⟨by decide, by decide⟩

end SignedUrl
